import Mathlib

/-!
Shallow embedding of `src/upsert.py` (python-postgres-upsert).

The source is a single function `upsert(db, table, keys, upserts, **kwargs)`
with nested helpers `parse_keys`, `get_current`, `get_to_update`,
`get_default`, `do_updates`, `get_unmatched`, `do_inserts`, `do_deletes`.

Modelling conventions:
* Python scalar values are `Value` (null / int / str); `type(x) != type(y)`
  is compared through `Value.tag`; Python `==` on these scalars coincides
  with decidable equality on `Value` (`None == None` is true, cross-type
  comparisons such as `5 == "5"` are false).
* A Python dict row is an association list `Row`; `row[f]` is `getItem`
  (KeyError when absent), `row.get(f)` is `Row.getPy` (returns null when
  absent), `f in row` is `Row.hasField`, `row[f] = v` is `Row.set`
  (replace in place, append when new — Python dict semantics).
* Exceptions are the `Err` type in an `Except Err` result: `KeyError`,
  `ValueError` (from `key.index(field)`), `IndexError`, `TypeError`
  (the type-mismatch raise, carrying the field and both values that the
  Python message names), and `psycopg2.errors.UniqueViolation`.
* The database handle `db` is external; its behavior is passed in:
  `db.get(...)` for the snapshot is the input row list (already filtered
  by the optional WHERE clause), `db.get_fields(table)` is the input field
  list, and `db.sql` / `db.insert` are oracles returning `true` for
  success and `false` for raising `UniqueViolation` (other database
  failures are outside the claims and not modelled).
* Observable effects (executed statements, dry-run prints, the logged
  `print(e)` on a caught UniqueViolation, and pre-insert hook calls) are
  collected in an `Event` trace.  Phase drivers return the events emitted
  before an uncaught exception together with the `Except` outcome.
-/

inductive Value where
  | null : Value
  | int : Int → Value
  | str : String → Value
deriving DecidableEq

/-- Discriminates Python runtime types for the `type(cur) != type(new)` check. -/
def Value.tag : Value → Nat
  | .null => 0
  | .int _ => 1
  | .str _ => 2

abbrev Row := List (String × Value)

inductive Err where
  | keyError (field : String) : Err
  | valueError (field : String) : Err
  | indexError : Err
  | typeError (field : String) (newVal curVal : Value) : Err
  | uniqueViolation : Err
deriving DecidableEq

/-- First-match association-list lookup (Python dict keys are unique). -/
def Row.find : Row → String → Option Value
  | [], _ => none
  | (g, v) :: rest, f => if g = f then some v else Row.find rest f

/-- Python `field in row`. -/
def Row.hasField (row : Row) (f : String) : Bool :=
  (Row.find row f).isSome

/-- Python `row.get(field)`: `None` when the field is absent. -/
def Row.getPy (row : Row) (f : String) : Value :=
  (Row.find row f).getD .null

/-- Python `row[field] = v`: replace in place, append when new. -/
def Row.set : Row → String → Value → Row
  | [], f, v => [(f, v)]
  | (g, w) :: rest, f, v => if g = f then (g, v) :: rest else (g, w) :: Row.set rest f v

/-- Python `row[field]`, raising `KeyError` when the field is absent. -/
def getItem (row : Row) (f : String) : Except Err Value :=
  match Row.find row f with
  | some v => .ok v
  | none => .error (.keyError f)

/-- Python `lst[i]`, raising `IndexError` out of range. -/
def listGet (l : List α) (i : Nat) : Except Err α :=
  match l.get? i with
  | some a => .ok a
  | none => .error .indexError

/-- `to_tup = lambda dct, k: tuple([dct[x] for x in k])` (line 3). -/
def to_tup (row : Row) : List String → Except Err (List Value)
  | [] => .ok []
  | f :: rest => do
    let v ← getItem row f
    let vs ← to_tup row rest
    .ok (v :: vs)

/-- Python `key.index(field)`: first index, `ValueError` when absent. -/
def keyIndex : List String → String → Except Err Nat
  | [], f => .error (.valueError f)
  | g :: rest, f =>
    if g = f then .ok 0
    else do
      let i ← keyIndex rest f
      .ok (i + 1)

/-- Key input: a bare field name or a tuple of field names (line 49-54). -/
inductive PyKey where
  | scalar : String → PyKey
  | tup : List String → PyKey

/-- The `keys` argument: a single key or a list of keys. -/
inductive PyKeys where
  | single : PyKey → PyKeys
  | list : List PyKey → PyKeys

def normKey : PyKey → List String
  | .scalar f => [f]
  | .tup fs => fs

/-- `parse_keys` (lines 47-55): wrap a non-list, turn scalars into 1-tuples. -/
def parse_keys : PyKeys → List (List String)
  | .single k => [normKey k]
  | .list ks => ks.map normKey

/-- `keymaps`: per field, a dict from an observed value to its alias values. -/
abbrev Keymaps := List (String × List (Value × List Value))

/-- Per-field default spec `[func, *args]`; string args starting with `*`
are back-references into the row (lines 94-103). -/
structure DefaultSpec where
  fn : List Value → Value
  args : List Value

/-- The `kwargs` of `upsert` (see the source docstring, lines 17-42).
`whereClause` is `kwargs["where"]` (a raw SQL fragment, not interpreted
here); `before_insert` keeps only the hook's argument list, the callable
itself being observed through the `Event.hookCall` trace entry. -/
structure Kwargs where
  whereClause : Option String := none
  delete : Bool := false
  ignore : List String := []
  default : List (String × DefaultSpec) := []
  noinsert : Bool := false
  get_unmatched : Bool := false
  overwrite : Bool := false
  ignorenull : Bool := false
  before_insert : Option (List Value) := none
  nonullkeys : Bool := false
  keymaps : Keymaps := []
  dryrun : Bool := false

/-- The multimap `current["tups"]`: key-tuple → list of row positions,
as an insertion-ordered association list (a Python dict). -/
abbrev TupMap := List (List Value × List Nat)

def tupsGet? : TupMap → List Value → Option (List Nat)
  | [], _ => none
  | (t, is) :: rest, u => if t = u then some is else tupsGet? rest u

/-- Lines 75-78: `if tup not in tups: tups[tup] = []` then `tups[tup].append(i)`. -/
def tupsAdd : TupMap → List Value → Nat → TupMap
  | [], t, i => [(t, [i])]
  | (u, is) :: rest, t, i =>
    if u = t then (u, is ++ [i]) :: rest else (u, is) :: tupsAdd rest t i

def registerAll (i : Nat) : List (List Value) → TupMap → TupMap
  | [], m => m
  | t :: ts, m => registerAll i ts (tupsAdd m t i)

/-- Lines 68-74, the inner `for k in kwargs["keymaps"][field]` loop: for each
mapped source value `k` of `f`, `idx = key.index(f)` (ValueError when `f`
is not in `key`); when `tup[idx] == k`, emit one substituted tuple per alias. -/
def aliasAdds (key : List String) (f : String) (tup : List Value) :
    List (Value × List Value) → Except Err (List (List Value))
  | [] => .ok []
  | (k, vs) :: rest => do
    let idx ← keyIndex key f
    let cur ← listGet tup idx
    let adds := if cur = k then vs.map (fun v => tup.set idx v) else []
    let more ← aliasAdds key f tup rest
    .ok (adds ++ more)

/-- Line 67, the outer `for field in kwargs.get("keymaps", {})` loop. -/
def allAliasAdds (key : List String) (tup : List Value) :
    Keymaps → Except Err (List (List Value))
  | [] => .ok []
  | (f, maps) :: rest => do
    let adds ← aliasAdds key f tup maps
    let more ← allAliasAdds key tup rest
    .ok (adds ++ more)

/-- Lines 64-74: `tups = [tup]` followed by the keymap alias expansion. -/
def rowTups (key : List String) (tup : List Value) (km : Keymaps) :
    Except Err (List (List Value)) := do
  let adds ← allAliasAdds key tup km
  .ok (tup :: adds)

/-- Lines 63-78: index one current row (at position `i`) under every key. -/
def indexRow (keys : List (List String)) (km : Keymaps) (row : Row) (i : Nat) :
    TupMap → Except Err TupMap
  | m =>
    match keys with
    | [] => .ok m
    | key :: rest => do
      let tup ← to_tup row key
      let ts ← rowTups key tup km
      indexRow rest km row i (registerAll i ts m)

def get_currentAux (keys : List (List String)) (km : Keymaps) :
    List Row → Nat → TupMap → Except Err TupMap
  | [], _, m => .ok m
  | row :: rest, i, m => do
    let m' ← indexRow keys km row i m
    get_currentAux keys km rest (i + 1) m'

structure Current where
  rows : List Row
  tups : TupMap
deriving DecidableEq

/-- `get_current` (lines 57-79).  `rows` stands for the result of
`db.get("SELECT * FROM table [WHERE ...]")`. -/
def get_current (rows : List Row) (keys : List (List String)) (km : Keymaps) :
    Except Err Current := do
  let m ← get_currentAux keys km rows 0 []
  .ok { rows := rows, tups := m }

structure MatchRecord where
  key : List String
  current : Nat
  upsert : Nat
deriving DecidableEq

/-- Lines 87-91: the body of the key loop for one desired row `j`.
`if tup in tups:` then `if nonullkeys and None in tup: continue`
then one record per indexed position. -/
def hitsFor (cur : Current) (nonull : Bool) (key : List String) (j : Nat)
    (tup : List Value) : List MatchRecord :=
  match tupsGet? cur.tups tup with
  | some is =>
    if nonull ∧ Value.null ∈ tup then []
    else is.map (fun i => ⟨key, i, j⟩)
  | none => []

def rowMatches (cur : Current) (nonull : Bool) (j : Nat) (ups : Row) :
    List (List String) → Except Err (List MatchRecord)
  | [] => .ok []
  | key :: rest => do
    let tup ← to_tup ups key
    let more ← rowMatches cur nonull j ups rest
    .ok (hitsFor cur nonull key j tup ++ more)

def get_to_updateAux (cur : Current) (keys : List (List String)) (nonull : Bool) :
    List Row → Nat → Except Err (List MatchRecord)
  | [], _ => .ok []
  | ups :: rest, j => do
    let recs ← rowMatches cur nonull j ups keys
    let more ← get_to_updateAux cur keys nonull rest (j + 1)
    .ok (recs ++ more)

/-- `get_to_update` (lines 81-92). -/
def get_to_update (cur : Current) (upserts : List Row) (keys : List (List String))
    (nonull : Bool) : Except Err (List MatchRecord) :=
  get_to_updateAux cur keys nonull upserts 0

/-- Is a string argument in a default/hook arg list a `*field` back-reference
(`isinstance(arg, str) and arg.startswith("*")`, lines 98 and 180)? -/
def isBackref (s : String) : Bool :=
  match s.data with
  | [] => false
  | c :: _ => c = '*'

/-- Python `s[1:]` for the back-reference field name. -/
def strTail (s : String) : String :=
  String.mk (s.data.drop 1)

/-- Resolve one default/hook argument: `*field` reads `row[field]`
(KeyError when absent), anything else passes through (lines 97-101). -/
def resolveArg (row : Row) (arg : Value) : Except Err Value :=
  match arg with
  | .str s => if isBackref s then getItem row (strTail s) else .ok (.str s)
  | v => .ok v

def resolveArgs (row : Row) : List Value → Except Err (List Value)
  | [] => .ok []
  | a :: rest => do
    let v ← resolveArg row a
    let vs ← resolveArgs row rest
    .ok (v :: vs)

/-- `get_default` (lines 94-103). -/
def get_default (spec : DefaultSpec) (row : Row) : Except Err Value := do
  let args ← resolveArgs row spec.args
  .ok (spec.fn args)

/-- Lines 114-117 / 170-173: `for field in default: row[field] = get_default(...)`,
sequential, each write visible to later back-references. -/
def applyDefaults : List (String × DefaultSpec) → Row → Except Err Row
  | [], row => .ok row
  | (f, spec) :: rest, row => do
    let v ← get_default spec row
    applyDefaults rest (Row.set row f v)

/-- An UPDATE statement as built at lines 131-139: the `field = %s` SET
fragments, the WHERE fragments, and the parameter tuple. -/
structure UpdateStmt where
  table : String
  sets : List String
  wheres : List String
  args : List Value
deriving DecidableEq

/-- Line 139: the query string passed to `db.sql`. -/
def UpdateStmt.query (s : UpdateStmt) : String :=
  "UPDATE " ++ s.table ++ " SET " ++ String.intercalate ", " s.sets ++
    " WHERE " ++ String.intercalate " AND " s.wheres

/-- Line 137: `field IS %s` when the current value is null, else `field = %s`. -/
def whereFrag (f : String) (v : Value) : String :=
  f ++ (if v = Value.null then " IS %s" else " = %s")

/-- Observable effects of one invocation, in emission order. -/
inductive Event where
  | updatePrint : UpdateStmt → Event
  | updateCall : UpdateStmt → Event
  | uvPrint : Event
  | insertPrint : Row → Event
  | insertCall : Row → Event
  | hookCall : List Value → Event
  | deletePrint : String → List Value → Event
  | deleteCall : String → List Value → Event
deriving DecidableEq

/-- Lines 120-132, the per-field diff loop: returns the SET fragments and the
collected new values, raising the TypeError of lines 127-129 when both values
are non-null with differing runtime types. -/
def diffFields (kw : Kwargs) (cur ups : Row) : List String →
    Except Err (List String × List Value)
  | [] => .ok ([], [])
  | f :: rest => do
    let cur_val ← getItem cur f
    if ¬ kw.overwrite ∧ ¬ Row.hasField ups f then
      diffFields kw cur ups rest
    else if kw.ignorenull ∧ Row.getPy ups f = Value.null then
      diffFields kw cur ups rest
    else if cur_val ≠ Value.null ∧ Row.getPy ups f ≠ Value.null ∧
        Value.tag cur_val ≠ Value.tag (Row.getPy ups f) then
      .error (.typeError f (Row.getPy ups f) cur_val)
    else if cur_val ≠ Row.getPy ups f then do
      let (sets, args) ← diffFields kw cur ups rest
      .ok ((f ++ " = %s") :: sets, (Row.getPy ups f) :: args)
    else
      diffFields kw cur ups rest

/-- Lines 134-138: the WHERE list (seeded with the optional global filter)
and the argument list extended with the matched key's CURRENT row values. -/
def buildWhere (curRow : Row) (ws : List String) (args : List Value) :
    List String → Except Err (List String × List Value)
  | [] => .ok (ws, args)
  | f :: rest => do
    let val ← getItem curRow f
    buildWhere curRow (ws ++ [whereFrag f val]) (args ++ [val]) rest

def optFilter (kw : Kwargs) : List String :=
  match kw.whereClause with
  | some w => [w]
  | none => []

/-- Lines 110-146, the body of the `for update in to_update` loop for one
MatchRecord: bind the two rows, apply defaults (mutating the desired row in
place, hence the returned upsert list), diff, and when the change set is
non-empty build and print/execute the UPDATE, catching only UniqueViolation. -/
def processOne (sqlOk : String → List Value → Bool) (table : String)
    (fields : List String) (cur : Current) (kw : Kwargs)
    (ups : List Row) (rec : MatchRecord) : Except Err (List Event × List Row) := do
  let curRow ← listGet cur.rows rec.current
  let upsRow ← listGet ups rec.upsert
  let upsRow1 ← applyDefaults kw.default upsRow
  let ups1 := ups.set rec.upsert upsRow1
  let (sets, args) ← diffFields kw curRow upsRow1 fields
  if sets = [] then
    .ok ([], ups1)
  else do
    let (wheres, args1) ← buildWhere curRow (optFilter kw) args rec.key
    let stmt : UpdateStmt := ⟨table, sets, wheres, args1⟩
    if kw.dryrun then
      .ok ([.updatePrint stmt], ups1)
    else if sqlOk stmt.query stmt.args then
      .ok ([.updateCall stmt], ups1)
    else
      .ok ([.uvPrint], ups1)

/-- The `for update in to_update` loop, keeping the events emitted before an
uncaught exception. -/
def do_updatesAux (sqlOk : String → List Value → Bool) (table : String)
    (fields : List String) (cur : Current) (kw : Kwargs) :
    List MatchRecord → List Row → List Event × Except Err (List Row)
  | [], ups => ([], .ok ups)
  | rec :: rest, ups =>
    match processOne sqlOk table fields cur kw ups rec with
    | .error e => ([], .error e)
    | .ok (evs, ups1) =>
      let (evs', r) := do_updatesAux sqlOk table fields cur kw rest ups1
      (evs ++ evs', r)

/-- `do_updates` (lines 105-146).  `fieldsAll` stands for
`db.get_fields(table)`; line 109 removes the ignore list. -/
def do_updates (sqlOk : String → List Value → Bool) (table : String)
    (fieldsAll : List String) (cur : Current) (kw : Kwargs)
    (to_update : List MatchRecord) (ups : List Row) :
    List Event × Except Err (List Row) :=
  do_updatesAux sqlOk table (fieldsAll.filter (fun x => x ∉ kw.ignore)) cur kw
    to_update ups

structure Unmatched where
  current : List Nat
  upserts : List Nat
deriving DecidableEq

/-- `get_unmatched` (lines 148-162): complement of the matched index sets.
The Python sets of natural positions are kept as ascending lists. -/
def get_unmatched (to_update : List MatchRecord) (cur : Current)
    (upserts : List Row) : Unmatched :=
  { current := (List.range cur.rows.length).filter
      (fun i => ¬ to_update.any (fun r => r.current = i)),
    upserts := (List.range upserts.length).filter
      (fun j => ¬ to_update.any (fun r => r.upsert = j)) }

/-- Lines 166-193, the body of the `for i in unmatched["upserts"]` loop:
defaults (mutating the row in place), hook-argument resolution (always),
hook invocation (only when not dry-run), then print/insert with only
UniqueViolation caught. -/
def do_insertsStep (insertOk : Row → Bool) (kw : Kwargs) (ups : List Row)
    (i : Nat) : Except Err (List Event × List Row) := do
  let row ← listGet ups i
  let row1 ← applyDefaults kw.default row
  let ups1 := ups.set i row1
  let hookEvs ← (match kw.before_insert with
    | none => .ok []
    | some hargs => do
        let args ← resolveArgs row1 hargs
        .ok (if kw.dryrun then ([] : List Event) else [Event.hookCall args]))
  let insEvs :=
    if kw.dryrun then [Event.insertPrint row1]
    else if insertOk row1 then [Event.insertCall row1]
    else [Event.uvPrint]
  .ok (hookEvs ++ insEvs, ups1)

def do_insertsAux (insertOk : Row → Bool) (kw : Kwargs) :
    List Nat → List Row → List Event × Except Err (List Row)
  | [], ups => ([], .ok ups)
  | i :: rest, ups =>
    match do_insertsStep insertOk kw ups i with
    | .error e => ([], .error e)
    | .ok (evs, ups1) =>
      let (evs', r) := do_insertsAux insertOk kw rest ups1
      (evs ++ evs', r)

/-- `do_inserts` (lines 164-193). -/
def do_inserts (insertOk : Row → Bool) (kw : Kwargs) (unmatchedUpserts : List Nat)
    (ups : List Row) : List Event × Except Err (List Row) :=
  do_insertsAux insertOk kw unmatchedUpserts ups

/-- Line 207: the DELETE query string. -/
def deleteQuery (table : String) (wheres : List String) : String :=
  "DELETE FROM " ++ table ++ " WHERE " ++ String.intercalate " AND " wheres

/-- Lines 197-211, one (unmatched current row, key) deletion.  Note line 200
computes `to_tup(row, key)` (and can raise KeyError) without using it.
`db.sql` here has no try/except, so a UniqueViolation would propagate;
`sqlOk = false` models that raise. -/
def do_deleteOne (sqlOk : String → List Value → Bool) (table : String)
    (kw : Kwargs) (row : Row) (key : List String) :
    Except Err (List Event) := do
  let _ ← to_tup row key
  let w0 := match kw.whereClause with
    | some w => [w]
    | none => ["1=1"]
  let (wheres, args) ← buildWhere row w0 [] key
  let q := deleteQuery table wheres
  if kw.dryrun then
    .ok [.deletePrint q args]
  else if sqlOk q args then
    .ok [.deleteCall q args]
  else
    .error .uniqueViolation

def do_deletesKeys (sqlOk : String → List Value → Bool) (table : String)
    (kw : Kwargs) (row : Row) : List (List String) → List Event × Except Err Unit
  | [] => ([], .ok ())
  | key :: rest =>
    match do_deleteOne sqlOk table kw row key with
    | .error e => ([], .error e)
    | .ok evs =>
      let (evs', r) := do_deletesKeys sqlOk table kw row rest
      (evs ++ evs', r)

def do_deletesAux (sqlOk : String → List Value → Bool) (table : String)
    (keys : List (List String)) (cur : Current) (kw : Kwargs) :
    List Nat → List Event × Except Err Unit
  | [] => ([], .ok ())
  | i :: rest =>
    match listGet cur.rows i with
    | .error e => ([], .error e)
    | .ok row =>
      match do_deletesKeys sqlOk table kw row keys with
      | (evs, .error e) => (evs, .error e)
      | (evs, .ok ()) =>
        let (evs', r) := do_deletesAux sqlOk table keys cur kw rest
        (evs ++ evs', r)

/-- `do_deletes` (lines 195-211). -/
def do_deletes (sqlOk : String → List Value → Bool) (table : String)
    (keys : List (List String)) (cur : Current) (kw : Kwargs)
    (unmatchedCurrent : List Nat) : List Event × Except Err Unit :=
  do_deletesAux sqlOk table keys cur kw unmatchedCurrent

/-- The value `upsert` returns: `True`, or the unmatched desired rows. -/
inductive UpsertResult where
  | success : UpsertResult
  | unmatchedRows : List Row → UpsertResult
deriving DecidableEq

def getRows (ups : List Row) : List Nat → Except Err (List Row)
  | [] => .ok []
  | i :: rest => do
    let r ← listGet ups i
    let rs ← getRows ups rest
    .ok (r :: rs)

/-- The driver of `upsert` (lines 213-225): normalize keys, snapshot, match,
update, resolve unmatched, insert unless `noinsert`, delete when `delete`,
then return the unmatched desired rows or `True`. -/
def upsert (sqlOk : String → List Value → Bool) (insertOk : Row → Bool)
    (fieldsAll : List String) (currentRows : List Row) (table : String)
    (keys0 : PyKeys) (upserts : List Row) (kw : Kwargs) :
    List Event × Except Err UpsertResult :=
  let keys := parse_keys keys0
  match get_current currentRows keys kw.keymaps with
  | .error e => ([], .error e)
  | .ok cur =>
    match get_to_update cur upserts keys kw.nonullkeys with
    | .error e => ([], .error e)
    | .ok to_update =>
      match do_updates sqlOk table fieldsAll cur kw to_update upserts with
      | (ev1, .error e) => (ev1, .error e)
      | (ev1, .ok ups1) =>
        let unm := get_unmatched to_update cur ups1
        match (if kw.noinsert then (([] : List Event), Except.ok ups1)
               else do_inserts insertOk kw unm.upserts ups1) with
        | (ev2, .error e) => (ev1 ++ ev2, .error e)
        | (ev2, .ok ups2) =>
          match (if kw.delete then do_deletes sqlOk table keys cur kw unm.current
                 else (([] : List Event), Except.ok ())) with
          | (ev3, .error e) => (ev1 ++ ev2 ++ ev3, .error e)
          | (ev3, .ok ()) =>
            if kw.get_unmatched then
              match getRows ups2 unm.upserts with
              | .error e => (ev1 ++ ev2 ++ ev3, .error e)
              | .ok rs => (ev1 ++ ev2 ++ ev3, .ok (.unmatchedRows rs))
            else
              (ev1 ++ ev2 ++ ev3, .ok .success)

/-! ## Basic lemmas -/

theorem except_bind_ok {α β : Type} (a : α) (f : α → Except Err β) :
    (Except.ok a >>= f) = f a := rfl

theorem except_bind_err {α β : Type} (e : Err) (f : α → Except Err β) :
    ((Except.error e : Except Err α) >>= f) = .error e := rfl

theorem listGet_ok_iff {α : Type} {l : List α} {i : Nat} {a : α} :
    listGet l i = .ok a ↔ l.get? i = some a := by
  unfold listGet
  cases h : l.get? i <;> simp

theorem listGet_ok_of_lt {α : Type} {l : List α} {i : Nat} (h : i < l.length) :
    ∃ a, listGet l i = .ok a :=
  ⟨l.get ⟨i, h⟩, listGet_ok_iff.mpr (List.get?_eq_get h)⟩

theorem getItem_ok_iff {row : Row} {f : String} {v : Value} :
    getItem row f = .ok v ↔ Row.find row f = some v := by
  unfold getItem
  cases h : Row.find row f <;> simp

theorem list_set_self {α : Type} : ∀ (l : List α) (i : Nat) (a : α),
    l.get? i = some a → l.set i a = l
  | [], _, _, h => by cases h
  | x :: xs, 0, a, h => by
    have hx : x = a := Option.some.inj h
    subst hx
    rfl
  | x :: xs, i + 1, a, h => by
    have h' : xs.get? i = some a := h
    show x :: xs.set i a = x :: xs
    rw [list_set_self xs i a h']

/-! ## Matcher lemmas (get_to_update) -/

theorem hitsFor_mem {cur : Current} {nonull : Bool} {key : List String} {j : Nat}
    {tup : List Value} {rec : MatchRecord} (h : rec ∈ hitsFor cur nonull key j tup) :
    rec.key = key ∧ rec.upsert = j ∧
      ∃ is, tupsGet? cur.tups tup = some is ∧ rec.current ∈ is ∧
        ¬(nonull = true ∧ Value.null ∈ tup) := by
  unfold hitsFor at h
  split at h
  next is hg =>
    split at h
    next hc => simp at h
    next hc =>
      simp only [List.mem_map] at h
      obtain ⟨i, hi, rfl⟩ := h
      exact ⟨rfl, rfl, is, hg, hi, hc⟩
  next hg => simp at h

theorem hitsFor_complete {cur : Current} {nonull : Bool} {key : List String} {j : Nat}
    {tup : List Value} {is : List Nat} {i : Nat}
    (hg : tupsGet? cur.tups tup = some is) (hi : i ∈ is)
    (hn : ¬(nonull = true ∧ Value.null ∈ tup)) :
    (⟨key, i, j⟩ : MatchRecord) ∈ hitsFor cur nonull key j tup := by
  unfold hitsFor
  simp only [hg]
  rw [if_neg hn]
  exact List.mem_map.mpr ⟨i, hi, rfl⟩

theorem rowMatches_mem {cur : Current} {nonull : Bool} {j : Nat} {ups : Row} :
    ∀ {keyList : List (List String)} {recs : List MatchRecord} {rec : MatchRecord},
    rowMatches cur nonull j ups keyList = .ok recs → rec ∈ recs →
    rec.upsert = j ∧ rec.key ∈ keyList ∧
      ∃ tup is, to_tup ups rec.key = .ok tup ∧ tupsGet? cur.tups tup = some is ∧
        rec.current ∈ is ∧ ¬(nonull = true ∧ Value.null ∈ tup)
  | [], recs, rec, h, hm => by
    simp only [rowMatches] at h
    cases h
    simp at hm
  | key :: rest, recs, rec, h, hm => by
    simp only [rowMatches] at h
    cases ht : to_tup ups key with
    | error e => rw [ht, except_bind_err] at h; cases h
    | ok tup =>
      rw [ht, except_bind_ok] at h
      cases hr : rowMatches cur nonull j ups rest with
      | error e => rw [hr, except_bind_err] at h; cases h
      | ok more =>
        rw [hr, except_bind_ok] at h
        cases h
        rcases List.mem_append.mp hm with h1 | h2
        · have hh := hitsFor_mem h1
          refine ⟨hh.2.1, ?_, ?_⟩
          · rw [hh.1]; exact List.mem_cons_self _ _
          · rcases hh.2.2 with ⟨is, hg, hic, hn⟩
            exact ⟨tup, is, by rw [hh.1]; exact ht, hg, hic, hn⟩
        · have hh := rowMatches_mem hr h2
          exact ⟨hh.1, List.mem_cons_of_mem _ hh.2.1, hh.2.2⟩

theorem rowMatches_complete {cur : Current} {nonull : Bool} {j : Nat} {ups : Row}
    {key : List String} {tup : List Value} {is : List Nat} {i : Nat}
    (ht : to_tup ups key = .ok tup) (hg : tupsGet? cur.tups tup = some is)
    (hi : i ∈ is) (hn : ¬(nonull = true ∧ Value.null ∈ tup)) :
    ∀ {keyList : List (List String)} {recs : List MatchRecord},
    rowMatches cur nonull j ups keyList = .ok recs → key ∈ keyList →
    (⟨key, i, j⟩ : MatchRecord) ∈ recs
  | [], recs, _, hk => by cases hk
  | key' :: rest, recs, h, hk => by
    simp only [rowMatches] at h
    cases ht' : to_tup ups key' with
    | error e => rw [ht', except_bind_err] at h; cases h
    | ok tup' =>
      rw [ht', except_bind_ok] at h
      cases hr : rowMatches cur nonull j ups rest with
      | error e => rw [hr, except_bind_err] at h; cases h
      | ok more =>
        rw [hr, except_bind_ok] at h
        cases h
        rcases List.mem_cons.mp hk with hk1 | hk2
        · subst hk1
          rw [ht'] at ht
          cases ht
          exact List.mem_append.mpr (Or.inl (hitsFor_complete hg hi hn))
        · exact List.mem_append.mpr
            (Or.inr (rowMatches_complete ht hg hi hn hr hk2))

theorem get_to_updateAux_mem {cur : Current} {keys : List (List String)} {nonull : Bool} :
    ∀ {upsList : List Row} {j0 : Nat} {recs : List MatchRecord} {rec : MatchRecord},
    get_to_updateAux cur keys nonull upsList j0 = .ok recs → rec ∈ recs →
    ∃ n ups, upsList.get? n = some ups ∧ rec.upsert = j0 + n ∧ rec.key ∈ keys ∧
      ∃ tup is, to_tup ups rec.key = .ok tup ∧ tupsGet? cur.tups tup = some is ∧
        rec.current ∈ is ∧ ¬(nonull = true ∧ Value.null ∈ tup)
  | [], j0, recs, rec, h, hm => by
    simp only [get_to_updateAux] at h
    cases h
    simp at hm
  | ups :: rest, j0, recs, rec, h, hm => by
    simp only [get_to_updateAux] at h
    cases hr : rowMatches cur nonull j0 ups keys with
    | error e => rw [hr, except_bind_err] at h; cases h
    | ok here =>
      rw [hr, except_bind_ok] at h
      cases ha : get_to_updateAux cur keys nonull rest (j0 + 1) with
      | error e => rw [ha, except_bind_err] at h; cases h
      | ok more =>
        rw [ha, except_bind_ok] at h
        cases h
        rcases List.mem_append.mp hm with h1 | h2
        · have hh := rowMatches_mem hr h1
          exact ⟨0, ups, rfl, by simp [hh.1], hh.2.1, hh.2.2⟩
        · rcases get_to_updateAux_mem ha h2 with ⟨n, u, hu, hj, hk, rest'⟩
          exact ⟨n + 1, u, hu, by omega, hk, rest'⟩

theorem get_to_updateAux_complete {cur : Current} {keys : List (List String)}
    {nonull : Bool} {key : List String} {tup : List Value} {is : List Nat} {i : Nat}
    (hg : tupsGet? cur.tups tup = some is) (hi : i ∈ is)
    (hn : ¬(nonull = true ∧ Value.null ∈ tup)) (hk : key ∈ keys) :
    ∀ {upsList : List Row} {j0 n : Nat} {ups : Row} {recs : List MatchRecord},
    get_to_updateAux cur keys nonull upsList j0 = .ok recs →
    upsList.get? n = some ups → to_tup ups key = .ok tup →
    (⟨key, i, j0 + n⟩ : MatchRecord) ∈ recs
  | [], j0, n, ups, recs, h, hu, ht => by cases hu
  | ups' :: rest, j0, n, ups, recs, h, hu, ht => by
    simp only [get_to_updateAux] at h
    cases hr : rowMatches cur nonull j0 ups' keys with
    | error e => rw [hr, except_bind_err] at h; cases h
    | ok here =>
      rw [hr, except_bind_ok] at h
      cases ha : get_to_updateAux cur keys nonull rest (j0 + 1) with
      | error e => rw [ha, except_bind_err] at h; cases h
      | ok more =>
        rw [ha, except_bind_ok] at h
        cases h
        cases n with
        | zero =>
          have he : ups' = ups := Option.some.inj hu
          subst he
          exact List.mem_append.mpr
            (Or.inl (by simpa using rowMatches_complete ht hg hi hn hr hk))
        | succ n' =>
          have hu' : rest.get? n' = some ups := hu
          have hrec := get_to_updateAux_complete hg hi hn hk ha hu' ht
          refine List.mem_append.mpr (Or.inr ?_)
          have h2 : j0 + 1 + n' = j0 + (n' + 1) := by omega
          rw [h2] at hrec
          exact hrec

/-! ## C5 and C10: null keys and matching -/

/-- C5: Null-key exclusion.  With the `nonullkeys` policy active, a desired
row whose key-tuple for a declared key contains a null produces no
MatchRecord for that key: no record of the match list pairs that desired
row with that key. -/
theorem get_to_update_C5_null_key_excluded
    (cur : Current) (upserts : List Row) (keys : List (List String))
    (recs : List MatchRecord) (j : Nat) (ups : Row) (key : List String)
    (tup : List Value)
    (hok : get_to_update cur upserts keys true = .ok recs)
    (hups : upserts.get? j = some ups)
    (htup : to_tup ups key = .ok tup)
    (hnull : Value.null ∈ tup) :
    ∀ rec ∈ recs, ¬(rec.upsert = j ∧ rec.key = key) := by
  rintro rec hm ⟨hj, hk⟩
  rcases get_to_updateAux_mem hok hm with ⟨n, u, hu, hjn, hkk, tup', is, ht', hg, hic, hnn⟩
  have hn0 : n = j := by omega
  subst hn0
  have huu : u = ups := Option.some.inj (hu.symm.trans hups)
  subst huu
  rw [hk] at ht'
  rw [htup] at ht'
  have htt : tup = tup' := Option.some.inj (congrArg Except.toOption ht')
  exact hnn ⟨rfl, htt ▸ hnull⟩

/-- Witness for C5: a desired row with a null `k` value and key list
`[("k",), ("id",)]` matches only through `("id",)`; no MatchRecord carries
the null key. -/
theorem get_to_update_C5_witness :
    get_to_update
        ⟨[[("id", Value.int 1), ("k", Value.null)]],
         [([Value.null], [0]), ([Value.int 1], [0])]⟩
        [[("id", Value.int 1), ("k", Value.null)]] [["k"], ["id"]] true =
      .ok [⟨["id"], 0, 0⟩] ∧
    ∀ rec ∈ [(⟨["id"], 0, 0⟩ : MatchRecord)], ¬(rec.upsert = 0 ∧ rec.key = ["k"]) := by
  refine ⟨rfl, ?_⟩
  exact get_to_update_C5_null_key_excluded
    ⟨[[("id", Value.int 1), ("k", Value.null)]],
     [([Value.null], [0]), ([Value.int 1], [0])]⟩
    [[("id", Value.int 1), ("k", Value.null)]] [["k"], ["id"]]
    [⟨["id"], 0, 0⟩] 0 [("id", Value.int 1), ("k", Value.null)] ["k"]
    [Value.null] rfl rfl rfl (by decide)

/-- C10: Null keys do match when the policy is off.  With `nonullkeys`
unset, a desired row whose key-tuple (null-containing or not) is indexed
in the snapshot produces one MatchRecord per indexed position, exactly as
for non-null tuples. -/
theorem get_to_update_C10_null_keys_match
    (cur : Current) (upserts : List Row) (keys : List (List String))
    (recs : List MatchRecord) (j : Nat) (ups : Row) (key : List String)
    (tup : List Value) (is : List Nat)
    (hok : get_to_update cur upserts keys false = .ok recs)
    (hups : upserts.get? j = some ups)
    (hkey : key ∈ keys)
    (htup : to_tup ups key = .ok tup)
    (hg : tupsGet? cur.tups tup = some is) :
    ∀ i ∈ is, (⟨key, i, j⟩ : MatchRecord) ∈ recs := by
  intro i hi
  have hr := get_to_updateAux_complete hg hi (by simp) hkey hok hups htup
  simpa using hr

/-- Witness for C10: the same null-keyed desired row as in the C5 witness,
with the policy off, does match through the null tuple `(k,)`. -/
theorem get_to_update_C10_witness :
    get_to_update
        ⟨[[("id", Value.int 1), ("k", Value.null)]],
         [([Value.null], [0]), ([Value.int 1], [0])]⟩
        [[("id", Value.int 1), ("k", Value.null)]] [["k"], ["id"]] false =
      .ok [⟨["k"], 0, 0⟩, ⟨["id"], 0, 0⟩] ∧
    ∀ i ∈ [0], (⟨["k"], i, 0⟩ : MatchRecord) ∈
      [(⟨["k"], 0, 0⟩ : MatchRecord), ⟨["id"], 0, 0⟩] := by
  refine ⟨rfl, ?_⟩
  exact get_to_update_C10_null_keys_match
    ⟨[[("id", Value.int 1), ("k", Value.null)]],
     [([Value.null], [0]), ([Value.int 1], [0])]⟩
    [[("id", Value.int 1), ("k", Value.null)]] [["k"], ["id"]]
    [⟨["k"], 0, 0⟩, ⟨["id"], 0, 0⟩] 0 [("id", Value.int 1), ("k", Value.null)]
    ["k"] [Value.null] [0] rfl rfl (by decide) rfl rfl

/-! ## Indexer lemmas (get_current) -/

/-- Position `j` is registered under tuple `t` in the index. -/
def memTup (m : TupMap) (t : List Value) (j : Nat) : Prop :=
  ∃ is, tupsGet? m t = some is ∧ j ∈ is

theorem tupsGet?_tupsAdd_self : ∀ (m : TupMap) (t : List Value) (i : Nat),
    tupsGet? (tupsAdd m t i) t = some ((tupsGet? m t).getD [] ++ [i])
  | [], t, i => by simp [tupsAdd, tupsGet?]
  | (u, is) :: rest, t, i => by
    by_cases h : u = t
    · subst h
      simp [tupsAdd, tupsGet?]
    · simp [tupsAdd, tupsGet?, h, tupsGet?_tupsAdd_self rest t i]

theorem tupsGet?_tupsAdd_ne : ∀ (m : TupMap) (t u : List Value) (i : Nat), u ≠ t →
    tupsGet? (tupsAdd m t i) u = tupsGet? m u
  | [], t, u, i, h => by
    have h' : ¬(t = u) := fun e => h e.symm
    simp [tupsAdd, tupsGet?, h']
  | (u', is) :: rest, t, u, i, h => by
    by_cases h1 : u' = t
    · subst h1
      have h2 : ¬(u' = u) := fun e => h (e ▸ rfl)
      simp [tupsAdd, tupsGet?, h2]
    · by_cases h2 : u' = u
      · subst h2
        simp [tupsAdd, tupsGet?, h1]
      · simp [tupsAdd, tupsGet?, h1, h2, tupsGet?_tupsAdd_ne rest t u i h]

theorem memTup_tupsAdd {m : TupMap} {t u : List Value} {i j : Nat}
    (h : memTup m u j) : memTup (tupsAdd m t i) u j := by
  rcases h with ⟨is, hg, hj⟩
  by_cases ht : u = t
  · subst ht
    refine ⟨(tupsGet? m u).getD [] ++ [i], tupsGet?_tupsAdd_self m u i, ?_⟩
    rw [hg]
    simp [hj]
  · exact ⟨is, (tupsGet?_tupsAdd_ne m t u i ht).trans hg, hj⟩

theorem memTup_tupsAdd_self (m : TupMap) (t : List Value) (i : Nat) :
    memTup (tupsAdd m t i) t i :=
  ⟨_, tupsGet?_tupsAdd_self m t i, by simp⟩

theorem memTup_registerAll {i : Nat} : ∀ {ts : List (List Value)} {m : TupMap}
    {t : List Value} {j : Nat}, memTup m t j → memTup (registerAll i ts m) t j
  | [], _, _, _, h => h
  | t' :: ts, m, t, j, h => by
    show memTup (registerAll i ts (tupsAdd m t' i)) t j
    exact memTup_registerAll (memTup_tupsAdd h)

theorem memTup_registerAll_self {i : Nat} : ∀ {ts : List (List Value)} {m : TupMap}
    {t : List Value}, t ∈ ts → memTup (registerAll i ts m) t i
  | [], _, _, h => absurd h (List.not_mem_nil _)
  | t' :: ts, m, t, h => by
    rcases List.mem_cons.mp h with h1 | h2
    · subst h1
      show memTup (registerAll i ts (tupsAdd m t i)) t i
      exact memTup_registerAll (memTup_tupsAdd_self m t i)
    · show memTup (registerAll i ts (tupsAdd m t' i)) t i
      exact memTup_registerAll_self h2

theorem indexRow_mono : ∀ {keys : List (List String)} {km : Keymaps} {row : Row}
    {i : Nat} {m m' : TupMap} {t : List Value} {j : Nat},
    indexRow keys km row i m = .ok m' → memTup m t j → memTup m' t j
  | [], km, row, i, m, m', t, j, h, hm => by
    simp only [indexRow] at h
    cases h
    exact hm
  | key :: rest, km, row, i, m, m', t, j, h, hm => by
    simp only [indexRow] at h
    cases ht : to_tup row key with
    | error e => rw [ht, except_bind_err] at h; cases h
    | ok tup =>
      rw [ht, except_bind_ok] at h
      cases hts : rowTups key tup km with
      | error e => rw [hts, except_bind_err] at h; cases h
      | ok ts =>
        rw [hts, except_bind_ok] at h
        exact indexRow_mono h (memTup_registerAll hm)

theorem indexRow_put : ∀ {keys : List (List String)} {km : Keymaps} {row : Row}
    {i : Nat} {m m' : TupMap} {key : List String} {tup : List Value}
    {ts : List (List Value)} {t : List Value},
    indexRow keys km row i m = .ok m' → key ∈ keys →
    to_tup row key = .ok tup → rowTups key tup km = .ok ts → t ∈ ts →
    memTup m' t i
  | [], _, _, _, _, _, _, _, _, _, _, hk, _, _, _ => absurd hk (List.not_mem_nil _)
  | key' :: rest, km, row, i, m, m', key, tup, ts, t, h, hk, ht, hts, htm => by
    simp only [indexRow] at h
    cases ht' : to_tup row key' with
    | error e => rw [ht', except_bind_err] at h; cases h
    | ok tup' =>
      rw [ht', except_bind_ok] at h
      cases hts' : rowTups key' tup' km with
      | error e => rw [hts', except_bind_err] at h; cases h
      | ok ts' =>
        rw [hts', except_bind_ok] at h
        rcases List.mem_cons.mp hk with h1 | h2
        · subst h1
          rw [ht'] at ht
          cases ht
          rw [hts'] at hts
          cases hts
          exact indexRow_mono h (memTup_registerAll_self htm)
        · exact indexRow_put h h2 ht hts htm

theorem indexRow_parts : ∀ {keys : List (List String)} {km : Keymaps} {row : Row}
    {i : Nat} {m m' : TupMap} {key : List String},
    indexRow keys km row i m = .ok m' → key ∈ keys →
    ∃ tup ts, to_tup row key = .ok tup ∧ rowTups key tup km = .ok ts
  | [], _, _, _, _, _, _, _, hk => absurd hk (List.not_mem_nil _)
  | key' :: rest, km, row, i, m, m', key, h, hk => by
    simp only [indexRow] at h
    cases ht' : to_tup row key' with
    | error e => rw [ht', except_bind_err] at h; cases h
    | ok tup' =>
      rw [ht', except_bind_ok] at h
      cases hts' : rowTups key' tup' km with
      | error e => rw [hts', except_bind_err] at h; cases h
      | ok ts' =>
        rw [hts', except_bind_ok] at h
        rcases List.mem_cons.mp hk with h1 | h2
        · subst h1
          exact ⟨tup', ts', ht', hts'⟩
        · exact indexRow_parts h h2

theorem get_currentAux_mono : ∀ {rows : List Row} {keys : List (List String)}
    {km : Keymaps} {p : Nat} {m M : TupMap} {t : List Value} {j : Nat},
    get_currentAux keys km rows p m = .ok M → memTup m t j → memTup M t j
  | [], keys, km, p, m, M, t, j, h, hm => by
    simp only [get_currentAux] at h
    cases h
    exact hm
  | row :: rest, keys, km, p, m, M, t, j, h, hm => by
    simp only [get_currentAux] at h
    cases hi : indexRow keys km row p m with
    | error e => rw [hi, except_bind_err] at h; cases h
    | ok m1 =>
      rw [hi, except_bind_ok] at h
      exact get_currentAux_mono h (indexRow_mono hi hm)

theorem get_currentAux_put : ∀ {rows : List Row} {keys : List (List String)}
    {km : Keymaps} {p : Nat} {m M : TupMap} {n : Nat} {row : Row}
    {key : List String} {tup : List Value} {ts : List (List Value)} {t : List Value},
    get_currentAux keys km rows p m = .ok M → rows.get? n = some row →
    key ∈ keys → to_tup row key = .ok tup → rowTups key tup km = .ok ts → t ∈ ts →
    memTup M t (p + n)
  | [], _, _, _, _, _, _, _, _, _, _, _, _, hrow, _, _, _, _ => by cases hrow
  | row' :: rest, keys, km, p, m, M, n, row, key, tup, ts, t, h, hrow, hk, ht, hts, htm => by
    simp only [get_currentAux] at h
    cases hi : indexRow keys km row' p m with
    | error e => rw [hi, except_bind_err] at h; cases h
    | ok m1 =>
      rw [hi, except_bind_ok] at h
      cases n with
      | zero =>
        have he : row' = row := Option.some.inj hrow
        subst he
        have h1 := indexRow_put hi hk ht hts htm
        have h2 := get_currentAux_mono h h1
        simpa using h2
      | succ n' =>
        have hrow' : rest.get? n' = some row := hrow
        have h2 := get_currentAux_put h hrow' hk ht hts htm
        have e : p + 1 + n' = p + (n' + 1) := by omega
        rw [e] at h2
        exact h2

theorem get_currentAux_parts : ∀ {rows : List Row} {keys : List (List String)}
    {km : Keymaps} {p : Nat} {m M : TupMap} {n : Nat} {row : Row} {key : List String},
    get_currentAux keys km rows p m = .ok M → rows.get? n = some row → key ∈ keys →
    ∃ tup ts, to_tup row key = .ok tup ∧ rowTups key tup km = .ok ts
  | [], _, _, _, _, _, _, _, _, _, hrow, _ => by cases hrow
  | row' :: rest, keys, km, p, m, M, n, row, key, h, hrow, hk => by
    simp only [get_currentAux] at h
    cases hi : indexRow keys km row' p m with
    | error e => rw [hi, except_bind_err] at h; cases h
    | ok m1 =>
      rw [hi, except_bind_ok] at h
      cases n with
      | zero =>
        have he : row' = row := Option.some.inj hrow
        subst he
        exact indexRow_parts hi hk
      | succ n' =>
        have hrow' : rest.get? n' = some row := hrow
        exact get_currentAux_parts h hrow' hk

theorem aliasAdds_mem : ∀ {key : List String} {f : String} {tup : List Value}
    {maps : List (Value × List Value)} {adds : List (List Value)}
    {k : Value} {vs : List Value} {v : Value} {idx : Nat},
    aliasAdds key f tup maps = .ok adds → (k, vs) ∈ maps →
    keyIndex key f = .ok idx → listGet tup idx = .ok k → v ∈ vs →
    tup.set idx v ∈ adds
  | _, _, _, [], _, _, _, _, _, _, hmem, _, _, _ => absurd hmem (List.not_mem_nil _)
  | key, f, tup, (k', vs') :: rest, adds, k, vs, v, idx, h, hmem, hidx, hg, hv => by
    simp only [aliasAdds] at h
    rw [hidx, except_bind_ok, hg, except_bind_ok] at h
    cases hrest : aliasAdds key f tup rest with
    | error e => rw [hrest, except_bind_err] at h; cases h
    | ok more =>
      rw [hrest, except_bind_ok] at h
      cases h
      rcases List.mem_cons.mp hmem with h1 | h2
      · have hk' : k' = k := (Prod.mk.injEq _ _ _ _ ▸ h1).1.symm
        have hvs : vs' = vs := (Prod.mk.injEq _ _ _ _ ▸ h1).2.symm
        subst hk'
        subst hvs
        rw [if_pos rfl]
        exact List.mem_append.mpr (Or.inl (List.mem_map.mpr ⟨v, hv, rfl⟩))
      · exact List.mem_append.mpr (Or.inr (aliasAdds_mem hrest h2 hidx hg hv))

theorem allAliasAdds_mem : ∀ {key : List String} {tup : List Value} {km : Keymaps}
    {adds : List (List Value)} {f : String} {maps : List (Value × List Value)}
    {k : Value} {vs : List Value} {v : Value} {idx : Nat},
    allAliasAdds key tup km = .ok adds → (f, maps) ∈ km → (k, vs) ∈ maps →
    keyIndex key f = .ok idx → listGet tup idx = .ok k → v ∈ vs →
    tup.set idx v ∈ adds
  | _, _, [], _, _, _, _, _, _, _, _, hf, _, _, _, _ => absurd hf (List.not_mem_nil _)
  | key, tup, (f', maps') :: rest, adds, f, maps, k, vs, v, idx, h, hf, hk, hidx, hg, hv => by
    simp only [allAliasAdds] at h
    cases ha : aliasAdds key f' tup maps' with
    | error e => rw [ha, except_bind_err] at h; cases h
    | ok a1 =>
      rw [ha, except_bind_ok] at h
      cases hrest : allAliasAdds key tup rest with
      | error e => rw [hrest, except_bind_err] at h; cases h
      | ok more =>
        rw [hrest, except_bind_ok] at h
        cases h
        rcases List.mem_cons.mp hf with h1 | h2
        · have hff : f' = f := (Prod.mk.injEq _ _ _ _ ▸ h1).1.symm
          have hmm : maps' = maps := (Prod.mk.injEq _ _ _ _ ▸ h1).2.symm
          subst hff
          subst hmm
          exact List.mem_append.mpr (Or.inl (aliasAdds_mem ha hk hidx hg hv))
        · exact List.mem_append.mpr (Or.inr (allAliasAdds_mem hrest h2 hk hidx hg hv))

theorem rowTups_self {key : List String} {tup : List Value} {km : Keymaps}
    {ts : List (List Value)} (h : rowTups key tup km = .ok ts) : tup ∈ ts := by
  unfold rowTups at h
  cases ha : allAliasAdds key tup km with
  | error e => rw [ha, except_bind_err] at h; cases h
  | ok adds =>
    rw [ha, except_bind_ok] at h
    cases h
    exact List.mem_cons_self _ _

theorem rowTups_alias {key : List String} {tup : List Value} {km : Keymaps}
    {ts : List (List Value)} {f : String} {maps : List (Value × List Value)}
    {k : Value} {vs : List Value} {v : Value} {idx : Nat}
    (h : rowTups key tup km = .ok ts) (hf : (f, maps) ∈ km) (hk : (k, vs) ∈ maps)
    (hidx : keyIndex key f = .ok idx) (hg : listGet tup idx = .ok k) (hv : v ∈ vs) :
    tup.set idx v ∈ ts := by
  unfold rowTups at h
  cases ha : allAliasAdds key tup km with
  | error e => rw [ha, except_bind_err] at h; cases h
  | ok adds =>
    rw [ha, except_bind_ok] at h
    cases h
    exact List.mem_cons_of_mem _ (allAliasAdds_mem ha hf hk hidx hg hv)

/-! ## C4: key-tuple alias symmetry -/

/-- C4: Key-tuple alias symmetry.  When the snapshot index is built
successfully, every current row is registered under its literal key-tuple,
and, for every key-map alias of one of that key's field values that the
row carries, also under the alias tuple (the literal tuple with the alias
substituted at the field's position in the key); lookup by either tuple
finds the row's position. -/
theorem get_current_C4_alias_symmetry
    (rows : List Row) (keys : List (List String)) (km : Keymaps) (cur : Current)
    (i : Nat) (row : Row) (key : List String) (tup : List Value)
    (hok : get_current rows keys km = .ok cur)
    (hrow : rows.get? i = some row)
    (hkey : key ∈ keys)
    (htup : to_tup row key = .ok tup) :
    (∃ is, tupsGet? cur.tups tup = some is ∧ i ∈ is) ∧
    (∀ (f : String) (maps : List (Value × List Value)) (k v : Value)
        (vs : List Value) (idx : Nat),
      (f, maps) ∈ km → (k, vs) ∈ maps →
      keyIndex key f = .ok idx → listGet tup idx = .ok k → v ∈ vs →
      ∃ is, tupsGet? cur.tups (tup.set idx v) = some is ∧ i ∈ is) := by
  unfold get_current at hok
  cases ha : get_currentAux keys km rows 0 [] with
  | error e => rw [ha, except_bind_err] at hok; cases hok
  | ok M =>
    rw [ha, except_bind_ok] at hok
    cases hok
    rcases get_currentAux_parts ha hrow hkey with ⟨tup', ts, ht', hts⟩
    rw [htup] at ht'
    cases ht'
    constructor
    · have hm := get_currentAux_put ha hrow hkey htup hts (rowTups_self hts)
      simpa [memTup] using hm
    · intro f maps k v vs idx hf hk hidx hg hv
      have halias := rowTups_alias hts hf hk hidx hg hv
      have hm := get_currentAux_put ha hrow hkey htup hts halias
      simpa [memTup] using hm

/-- Witness for C4: the row `{id: "a"}` under key `("id",)` with key-map
`{"id": {"a": ["b"]}}` is found both under `("a",)` and under the alias
`("b",)`. -/
theorem get_current_C4_witness :
    (∃ is, tupsGet?
        (Current.mk [[("id", Value.str "a")]]
          [([Value.str "a"], [0]), ([Value.str "b"], [0])]).tups
        [Value.str "a"] = some is ∧ 0 ∈ is) ∧
    (∀ (f : String) (maps : List (Value × List Value)) (k v : Value)
        (vs : List Value) (idx : Nat),
      (f, maps) ∈ ([("id", [(Value.str "a", [Value.str "b"])])] : Keymaps) →
      (k, vs) ∈ maps →
      keyIndex ["id"] f = .ok idx → listGet [Value.str "a"] idx = .ok k → v ∈ vs →
      ∃ is, tupsGet?
          (Current.mk [[("id", Value.str "a")]]
            [([Value.str "a"], [0]), ([Value.str "b"], [0])]).tups
          (([Value.str "a"]).set idx v) = some is ∧ 0 ∈ is) :=
  get_current_C4_alias_symmetry [[("id", Value.str "a")]] [["id"]]
    [("id", [(Value.str "a", [Value.str "b"])])]
    (Current.mk [[("id", Value.str "a")]]
      [([Value.str "a"], [0]), ([Value.str "b"], [0])])
    0 [("id", Value.str "a")] ["id"] [Value.str "a"]
    rfl rfl (by decide) rfl

/-! ## Counterexamples -/

/-- C3 counterexample: with `nonullkeys` set and a desired row whose key
value is null, the row is inserted by a first run against an empty table
(first conjunct: the only effect is that insert, so the resulting table
state is exactly that one row), and a second run of the same call against
the resulting table state inserts it again — the second run does not
perform zero inserts.  (A null key cannot violate a uniqueness constraint,
so the insert oracle succeeds.) -/
theorem upsert_C3_second_run_cex :
    upsert (fun _ _ => true) (fun _ => true) ["k", "v"] [] "t"
        (PyKeys.single (PyKey.tup ["k"])) [[("k", Value.null), ("v", Value.int 1)]]
        { nonullkeys := true } =
      ([Event.insertCall [("k", Value.null), ("v", Value.int 1)]], .ok .success) ∧
    upsert (fun _ _ => true) (fun _ => true) ["k", "v"]
        [[("k", Value.null), ("v", Value.int 1)]] "t"
        (PyKeys.single (PyKey.tup ["k"])) [[("k", Value.null), ("v", Value.int 1)]]
        { nonullkeys := true } =
      ([Event.insertCall [("k", Value.null), ("v", Value.int 1)]], .ok .success) :=
  ⟨rfl, rfl⟩

/-- C7 counterexample: in dry-run mode, the pre-insert hook's argument
resolution still runs — a back-reference to a field absent from the row
raises a KeyError even though dry-run would only have printed the row, so
resolution is not skipped in dry-run. -/
theorem do_inserts_C7_cex :
    upsert (fun _ _ => true) (fun _ => true) ["a"] [] "t"
        (PyKeys.single (PyKey.scalar "a")) [[("a", Value.int 1)]]
        { before_insert := some [Value.str "*missing"], dryrun := true } =
      ([], .error (.keyError "missing")) := rfl

/-- C8 counterexample: one current row `{id: "a", v: 0}` is matched twice
(two desired rows reach it through the key-map alias `"a" → "b"`).  The
first UPDATE executes and sets `id` to `"b"`, but the second MatchRecord's
statement still carries the where-clause value `"a"` taken from the
unchanged in-memory snapshot — the executed update did not write back into
the snapshot row (the claim predicts the second where lookup would see
`"b"`). -/
theorem do_updates_C8_cex :
    get_current [[("id", Value.str "a"), ("v", Value.int 0)]] [["id"]]
        [("id", [(Value.str "a", [Value.str "b"])])] =
      .ok (Current.mk [[("id", Value.str "a"), ("v", Value.int 0)]]
        [([Value.str "a"], [0]), ([Value.str "b"], [0])]) ∧
    get_to_update
        (Current.mk [[("id", Value.str "a"), ("v", Value.int 0)]]
          [([Value.str "a"], [0]), ([Value.str "b"], [0])])
        [[("id", Value.str "b"), ("v", Value.int 1)],
         [("id", Value.str "b"), ("v", Value.int 2)]] [["id"]] false =
      .ok [⟨["id"], 0, 0⟩, ⟨["id"], 0, 1⟩] ∧
    do_updates (fun _ _ => true) "t" ["id", "v"]
        (Current.mk [[("id", Value.str "a"), ("v", Value.int 0)]]
          [([Value.str "a"], [0]), ([Value.str "b"], [0])])
        { keymaps := [("id", [(Value.str "a", [Value.str "b"])])] }
        [⟨["id"], 0, 0⟩, ⟨["id"], 0, 1⟩]
        [[("id", Value.str "b"), ("v", Value.int 1)],
         [("id", Value.str "b"), ("v", Value.int 2)]] =
      ([Event.updateCall ⟨"t", ["id = %s", "v = %s"], ["id = %s"],
          [Value.str "b", Value.int 1, Value.str "a"]⟩,
        Event.updateCall ⟨"t", ["id = %s", "v = %s"], ["id = %s"],
          [Value.str "b", Value.int 2, Value.str "a"]⟩],
       .ok [[("id", Value.str "b"), ("v", Value.int 1)],
            [("id", Value.str "b"), ("v", Value.int 2)]]) :=
  ⟨rfl, rfl, rfl⟩

/-- C9 counterexample: a key-map entry for field `f2` — absent from the only
declared key `("f1",)` — whose alias dict is empty raises nothing: the inner
loop over mapped source values never runs, so `key.index("f2")` is never
evaluated, and index construction (and the whole invocation) succeeds even
though the snapshot is non-empty. -/
theorem get_current_C9_cex :
    get_current [[("f1", Value.int 1)]] [["f1"]] [("f2", [])] =
      .ok (Current.mk [[("f1", Value.int 1)]] [([Value.int 1], [0])]) ∧
    upsert (fun _ _ => true) (fun _ => true) ["f1"] [[("f1", Value.int 1)]] "t"
        (PyKeys.single (PyKey.scalar "f1")) [] { keymaps := [("f2", [])] } =
      ([], .ok .success) :=
  ⟨rfl, rfl⟩

/-! ## Update-phase lemmas (do_updates) -/

theorem do_updatesAux_cons (sqlOk : String → List Value → Bool) (table : String)
    (fields : List String) (cur : Current) (kw : Kwargs)
    (rec : MatchRecord) (rest : List MatchRecord) (ups : List Row) :
    do_updatesAux sqlOk table fields cur kw (rec :: rest) ups =
      match processOne sqlOk table fields cur kw ups rec with
      | .error e => ([], .error e)
      | .ok (evs, ups1) =>
        (evs ++ (do_updatesAux sqlOk table fields cur kw rest ups1).1,
         (do_updatesAux sqlOk table fields cur kw rest ups1).2) := by
  cases hp : processOne sqlOk table fields cur kw ups rec with
  | error e => simp only [do_updatesAux, hp]
  | ok pair =>
    cases pair
    simp only [do_updatesAux, hp]

theorem do_updatesAux_append_ok {sqlOk : String → List Value → Bool} {table : String}
    {fields : List String} {cur : Current} {kw : Kwargs}
    {l1 : List MatchRecord} {ups : List Row} {evs : List Event} {ups1 : List Row}
    (l2 : List MatchRecord)
    (h : do_updatesAux sqlOk table fields cur kw l1 ups = (evs, .ok ups1)) :
    do_updatesAux sqlOk table fields cur kw (l1 ++ l2) ups =
      (evs ++ (do_updatesAux sqlOk table fields cur kw l2 ups1).1,
       (do_updatesAux sqlOk table fields cur kw l2 ups1).2) := by
  induction l1 generalizing ups evs with
  | nil =>
    simp only [do_updatesAux] at h
    injection h with h1 h2
    subst h1
    injection h2 with h2
    subst h2
    rfl
  | cons rec rest ih =>
    cases hp : processOne sqlOk table fields cur kw ups rec with
    | error e =>
      simp only [do_updatesAux, hp] at h
      injection h with h1 h2
      exact absurd h2 (by simp)
    | ok pair =>
      obtain ⟨pevs, pups⟩ := pair
      rcases hq : do_updatesAux sqlOk table fields cur kw rest pups with ⟨revs, rr⟩
      simp only [do_updatesAux, hp, hq] at h
      injection h with h1 h2
      subst h1
      subst h2
      have hih := ih hq
      rw [List.cons_append]
      simp only [do_updatesAux, hp, hih]
      simp [List.append_assoc]

theorem do_updatesAux_noop {sqlOk : String → List Value → Bool} {table : String}
    {fields : List String} {cur : Current} {kw : Kwargs} :
    ∀ {tu : List MatchRecord} {ups : List Row},
    (∀ rec ∈ tu, processOne sqlOk table fields cur kw ups rec = .ok ([], ups)) →
    do_updatesAux sqlOk table fields cur kw tu ups = ([], .ok ups)
  | [], _, _ => rfl
  | rec :: rest, ups, h => by
    have hrec := h rec (List.mem_cons_self _ _)
    have hrest := do_updatesAux_noop (fun r hr => h r (List.mem_cons_of_mem _ hr))
    simp only [do_updatesAux, hrec, hrest, List.nil_append]

theorem diffFields_noop {kw : Kwargs} {cur ups : Row} : ∀ {fields : List String},
    (∀ f ∈ fields, (Row.find cur f).isSome = true ∧ Row.find cur f = Row.find ups f) →
    diffFields kw cur ups fields = .ok ([], [])
  | [], _ => rfl
  | f :: rest, h => by
    obtain ⟨hs, he⟩ := h f (List.mem_cons_self _ _)
    obtain ⟨v, hv⟩ := Option.isSome_iff_exists.mp hs
    have hu : Row.find ups f = some v := he ▸ hv
    have hi : getItem cur f = .ok v := getItem_ok_iff.mpr hv
    have hhf : Row.hasField ups f = true := by simp [Row.hasField, hu]
    have hnv : Row.getPy ups f = v := by simp [Row.getPy, hu]
    have ih := @diffFields_noop kw cur ups rest
      (fun g hg => h g (List.mem_cons_of_mem _ hg))
    simp only [diffFields]
    rw [hi, except_bind_ok]
    rw [if_neg (fun hc => hc.2 hhf)]
    rw [hnv]
    by_cases h2 : (kw.ignorenull : Prop) ∧ v = Value.null
    · rw [if_pos h2]
      exact ih
    · rw [if_neg h2]
      rw [if_neg (fun hc => hc.2.2 rfl)]
      rw [if_neg (fun hc => hc rfl)]
      exact ih

theorem buildWhere_spec {curRow : Row} : ∀ {key : List String}
    (ws : List String) (args : List Value),
    (∀ f ∈ key, (Row.find curRow f).isSome = true) →
    buildWhere curRow ws args key =
      .ok (ws ++ key.map (fun f => whereFrag f (Row.getPy curRow f)),
           args ++ key.map (fun f => Row.getPy curRow f))
  | [], ws, args, _ => by simp [buildWhere]
  | f :: rest, ws, args, h => by
    obtain ⟨v, hv⟩ := Option.isSome_iff_exists.mp (h f (List.mem_cons_self _ _))
    have hgp : Row.getPy curRow f = v := by simp [Row.getPy, hv]
    simp only [buildWhere]
    rw [getItem_ok_iff.mpr hv, except_bind_ok]
    rw [buildWhere_spec (ws ++ [whereFrag f v]) (args ++ [v])
      (fun g hg => h g (List.mem_cons_of_mem _ hg))]
    simp [hgp, List.append_assoc]

theorem processOne_noop {sqlOk : String → List Value → Bool} {table : String}
    {fields : List String} {cur : Current} {kw : Kwargs} {ups : List Row}
    {rec : MatchRecord} {curRow upsRow : Row}
    (hcrow : cur.rows.get? rec.current = some curRow)
    (hurow : ups.get? rec.upsert = some upsRow)
    (hdef : applyDefaults kw.default upsRow = .ok upsRow)
    (heq : ∀ f ∈ fields, (Row.find curRow f).isSome = true ∧
      Row.find curRow f = Row.find upsRow f) :
    processOne sqlOk table fields cur kw ups rec = .ok ([], ups) := by
  have h1 : listGet cur.rows rec.current = .ok curRow := listGet_ok_iff.mpr hcrow
  have h2 : listGet ups rec.upsert = .ok upsRow := listGet_ok_iff.mpr hurow
  have h3 := @diffFields_noop kw curRow upsRow fields heq
  simp only [processOne, h1, h2, hdef, h3, except_bind_ok]
  rw [if_pos trivial]
  rw [list_set_self ups rec.upsert upsRow hurow]

/-! ## Assembly of the upsert pipeline -/

theorem upsert_error_of_updates
    {sqlOk : String → List Value → Bool} {insertOk : Row → Bool}
    {fieldsAll : List String} {currentRows : List Row} {table : String}
    {keys0 : PyKeys} {upserts : List Row} {kw : Kwargs}
    {cur : Current} {tu : List MatchRecord} {ev1 : List Event} {e : Err}
    (hcur : get_current currentRows (parse_keys keys0) kw.keymaps = .ok cur)
    (htu : get_to_update cur upserts (parse_keys keys0) kw.nonullkeys = .ok tu)
    (hupd : do_updates sqlOk table fieldsAll cur kw tu upserts = (ev1, .error e)) :
    upsert sqlOk insertOk fieldsAll currentRows table keys0 upserts kw =
      (ev1, .error e) := by
  simp only [upsert, hcur, htu, hupd]

theorem upsert_ok_assembly
    {sqlOk : String → List Value → Bool} {insertOk : Row → Bool}
    {fieldsAll : List String} {currentRows : List Row} {table : String}
    {keys0 : PyKeys} {upserts : List Row} {kw : Kwargs}
    {cur : Current} {tu : List MatchRecord} {ev1 ev2 : List Event}
    {ups1 ups2 : List Row}
    (hcur : get_current currentRows (parse_keys keys0) kw.keymaps = .ok cur)
    (htu : get_to_update cur upserts (parse_keys keys0) kw.nonullkeys = .ok tu)
    (hupd : do_updates sqlOk table fieldsAll cur kw tu upserts = (ev1, .ok ups1))
    (hni : kw.noinsert = false)
    (hins : do_inserts insertOk kw (get_unmatched tu cur ups1).upserts ups1 =
      (ev2, .ok ups2))
    (hdel : kw.delete = false) (hgu : kw.get_unmatched = false) :
    upsert sqlOk insertOk fieldsAll currentRows table keys0 upserts kw =
      (ev1 ++ ev2, .ok .success) := by
  simp only [upsert, hcur, htu, hupd, hni, hins, hdel, hgu]
  simp

/-! ## C2: type mismatch is fatal and uncaught -/

/-- C2: Type-mismatch is fatal and uncaught.  First conjunct: whenever the
field loop reaches a field whose current and desired values are both
non-null with differing runtime types, the diff raises a TypeError naming
the field and both values.  Second and third conjuncts: for a MatchRecord
whose diff raises that error (any position in the match list, after `pre`
processed successfully), the record's processing produces the error instead
of an UPDATE event, and the error propagates uncaught out of the whole
invocation, whose event trace stops at the events of the earlier records. -/
theorem upsert_C2_type_mismatch_fatal
    (sqlOk : String → List Value → Bool) (insertOk : Row → Bool)
    (fieldsAll : List String) (currentRows : List Row) (table : String)
    (keys0 : PyKeys) (upserts : List Row) (kw : Kwargs)
    (cur : Current) (tu pre post : List MatchRecord) (rec : MatchRecord)
    (evs : List Event) (ups1 : List Row) (curRow upsRow upsRow1 : Row)
    (f : String) (nv cv : Value)
    (hcur : get_current currentRows (parse_keys keys0) kw.keymaps = .ok cur)
    (htu : get_to_update cur upserts (parse_keys keys0) kw.nonullkeys = .ok tu)
    (hsplit : tu = pre ++ rec :: post)
    (hpre : do_updatesAux sqlOk table (fieldsAll.filter (fun x => x ∉ kw.ignore))
      cur kw pre upserts = (evs, .ok ups1))
    (hcrow : listGet cur.rows rec.current = .ok curRow)
    (hurow : listGet ups1 rec.upsert = .ok upsRow)
    (hdef : applyDefaults kw.default upsRow = .ok upsRow1)
    (hdiff : diffFields kw curRow upsRow1 (fieldsAll.filter (fun x => x ∉ kw.ignore)) =
      .error (.typeError f nv cv)) :
    (∀ (g : String) (rest : List String) (cv' nv' : Value),
      Row.find curRow g = some cv' → cv' ≠ Value.null →
      Row.hasField upsRow1 g = true → Row.getPy upsRow1 g = nv' →
      nv' ≠ Value.null → Value.tag cv' ≠ Value.tag nv' →
      diffFields kw curRow upsRow1 (g :: rest) = .error (.typeError g nv' cv')) ∧
    processOne sqlOk table (fieldsAll.filter (fun x => x ∉ kw.ignore)) cur kw
      ups1 rec = .error (.typeError f nv cv) ∧
    upsert sqlOk insertOk fieldsAll currentRows table keys0 upserts kw =
      (evs, .error (.typeError f nv cv)) := by
  have hproc : processOne sqlOk table (fieldsAll.filter (fun x => x ∉ kw.ignore))
      cur kw ups1 rec = .error (.typeError f nv cv) := by
    simp only [processOne, hcrow, hurow, hdef, hdiff, except_bind_ok, except_bind_err]
  refine ⟨?_, hproc, ?_⟩
  · intro g rest cv' nv' hfind hcnn hhf hgp hnn htag
    simp only [diffFields]
    rw [getItem_ok_iff.mpr hfind, except_bind_ok]
    rw [if_neg (fun hc => hc.2 hhf)]
    rw [hgp]
    rw [if_neg (fun hc => hnn hc.2)]
    rw [if_pos ⟨hcnn, hnn, htag⟩]
  · have hrec : do_updatesAux sqlOk table (fieldsAll.filter (fun x => x ∉ kw.ignore))
        cur kw (rec :: post) ups1 = ([], .error (.typeError f nv cv)) := by
      simp only [do_updatesAux, hproc]
    have hall : do_updatesAux sqlOk table (fieldsAll.filter (fun x => x ∉ kw.ignore))
        cur kw tu upserts = (evs, .error (.typeError f nv cv)) := by
      rw [hsplit, do_updatesAux_append_ok (rec :: post) hpre, hrec]
      simp
    exact upsert_error_of_updates hcur htu (by
      simp only [do_updates]
      exact hall)

/-- Witness for C2: diffing current `{id: 1, v: "5"}` against desired
`{id: 1, v: 5}` raises the type mismatch on field `v` and aborts the whole
invocation with no events. -/
theorem upsert_C2_witness :
    (∀ (g : String) (rest : List String) (cv' nv' : Value),
      Row.find [("id", Value.int 1), ("v", Value.str "5")] g = some cv' →
      cv' ≠ Value.null →
      Row.hasField [("id", Value.int 1), ("v", Value.int 5)] g = true →
      Row.getPy [("id", Value.int 1), ("v", Value.int 5)] g = nv' →
      nv' ≠ Value.null → Value.tag cv' ≠ Value.tag nv' →
      diffFields {} [("id", Value.int 1), ("v", Value.str "5")]
        [("id", Value.int 1), ("v", Value.int 5)] (g :: rest) =
        .error (.typeError g nv' cv')) ∧
    processOne (fun _ _ => true) "t" (["id", "v"].filter
      (fun x => x ∉ ({} : Kwargs).ignore)) (Current.mk
        [[("id", Value.int 1), ("v", Value.str "5")]] [([Value.int 1], [0])])
      {} [[("id", Value.int 1), ("v", Value.int 5)]] ⟨["id"], 0, 0⟩ =
      .error (.typeError "v" (Value.int 5) (Value.str "5")) ∧
    upsert (fun _ _ => true) (fun _ => true) ["id", "v"]
      [[("id", Value.int 1), ("v", Value.str "5")]] "t"
      (PyKeys.single (PyKey.scalar "id"))
      [[("id", Value.int 1), ("v", Value.int 5)]] {} =
      ([], .error (.typeError "v" (Value.int 5) (Value.str "5"))) :=
  upsert_C2_type_mismatch_fatal (fun _ _ => true) (fun _ => true) ["id", "v"]
    [[("id", Value.int 1), ("v", Value.str "5")]] "t"
    (PyKeys.single (PyKey.scalar "id"))
    [[("id", Value.int 1), ("v", Value.int 5)]] {}
    (Current.mk [[("id", Value.int 1), ("v", Value.str "5")]] [([Value.int 1], [0])])
    [⟨["id"], 0, 0⟩] [] [] ⟨["id"], 0, 0⟩ []
    [[("id", Value.int 1), ("v", Value.int 5)]]
    [("id", Value.int 1), ("v", Value.str "5")]
    [("id", Value.int 1), ("v", Value.int 5)]
    [("id", Value.int 1), ("v", Value.int 5)]
    "v" (Value.int 5) (Value.str "5")
    rfl rfl rfl rfl rfl rfl rfl rfl

/-! ## C6: UPDATE statement scoping -/

/-- C6: UPDATE scoping.  For a MatchRecord with a non-empty change set, the
emitted statement's WHERE list is the optional global filter clause followed
by one predicate per field of the record's matched key — `field IS %s` when
the matched CURRENT row stores null there and `field = %s` otherwise — and
its argument list appends, after the SET values, exactly the matched CURRENT
row's stored values for those key fields (never the desired row's). -/
theorem do_updates_C6_where_scoping
    (sqlOk : String → List Value → Bool) (table : String) (fields : List String)
    (cur : Current) (kw : Kwargs) (pre post : List MatchRecord) (rec : MatchRecord)
    (ups : List Row) (evs : List Event) (ups1 : List Row)
    (curRow upsRow upsRow1 : Row) (sets : List String) (args : List Value)
    (hpre : do_updatesAux sqlOk table fields cur kw pre ups = (evs, .ok ups1))
    (hcrow : listGet cur.rows rec.current = .ok curRow)
    (hurow : listGet ups1 rec.upsert = .ok upsRow)
    (hdef : applyDefaults kw.default upsRow = .ok upsRow1)
    (hdiff : diffFields kw curRow upsRow1 fields = .ok (sets, args))
    (hne : sets ≠ [])
    (hkeyvals : ∀ f ∈ rec.key, (Row.find curRow f).isSome = true) :
    ∃ stmt : UpdateStmt,
      stmt.table = table ∧ stmt.sets = sets ∧
      stmt.wheres = optFilter kw ++
        rec.key.map (fun f => whereFrag f (Row.getPy curRow f)) ∧
      stmt.args = args ++ rec.key.map (fun f => Row.getPy curRow f) ∧
      processOne sqlOk table fields cur kw ups1 rec =
        .ok ((if kw.dryrun then [Event.updatePrint stmt]
              else if sqlOk stmt.query stmt.args then [Event.updateCall stmt]
              else [Event.uvPrint]), ups1.set rec.upsert upsRow1) ∧
      (do_updatesAux sqlOk table fields cur kw (pre ++ rec :: post) ups).1 =
        evs ++ (if kw.dryrun then [Event.updatePrint stmt]
                else if sqlOk stmt.query stmt.args then [Event.updateCall stmt]
                else [Event.uvPrint]) ++
          (do_updatesAux sqlOk table fields cur kw post
            (ups1.set rec.upsert upsRow1)).1 := by
  have hbw := @buildWhere_spec curRow rec.key (optFilter kw) args hkeyvals
  refine ⟨⟨table, sets,
    optFilter kw ++ rec.key.map (fun f => whereFrag f (Row.getPy curRow f)),
    args ++ rec.key.map (fun f => Row.getPy curRow f)⟩, rfl, rfl, rfl, rfl, ?_, ?_⟩
  case _ =>
    simp only [processOne, hcrow, hurow, hdef, hdiff, hbw, except_bind_ok]
    rw [if_neg hne]
    split_ifs <;> rfl
  case _ =>
    have hpo : processOne sqlOk table fields cur kw ups1 rec =
        .ok ((if kw.dryrun then [Event.updatePrint ⟨table, sets,
              optFilter kw ++ rec.key.map (fun f => whereFrag f (Row.getPy curRow f)),
              args ++ rec.key.map (fun f => Row.getPy curRow f)⟩]
            else if sqlOk (UpdateStmt.query ⟨table, sets,
              optFilter kw ++ rec.key.map (fun f => whereFrag f (Row.getPy curRow f)),
              args ++ rec.key.map (fun f => Row.getPy curRow f)⟩)
              (args ++ rec.key.map (fun f => Row.getPy curRow f)) then
              [Event.updateCall ⟨table, sets,
                optFilter kw ++ rec.key.map (fun f => whereFrag f (Row.getPy curRow f)),
                args ++ rec.key.map (fun f => Row.getPy curRow f)⟩]
            else [Event.uvPrint]), ups1.set rec.upsert upsRow1) := by
      simp only [processOne, hcrow, hurow, hdef, hdiff, hbw, except_bind_ok]
      rw [if_neg hne]
      split_ifs <;> rfl
    rw [do_updatesAux_append_ok (rec :: post) hpre]
    simp only [do_updatesAux, hpo]
    simp [List.append_assoc]

/-- Witness for C6: a change set `v = 1` on a row matched by key `("id",)`
whose current `id` is null, with global filter `org = 7`: the WHERE list is
`["org = 7", "id IS %s"]` and the argument tuple appends the current null. -/
theorem do_updates_C6_witness :
    ∃ stmt : UpdateStmt, stmt.table = "t" ∧ stmt.sets = ["v = %s"] ∧
      stmt.wheres = ["org = 7", "id IS %s"] ∧
      stmt.args = [Value.int 1, Value.null] ∧
      processOne (fun _ _ => true) "t" ["id", "v"]
        (Current.mk [[("id", Value.null), ("v", Value.int 0)]] [([Value.null], [0])])
        { whereClause := some "org = 7" }
        [[("id", Value.null), ("v", Value.int 1)]] ⟨["id"], 0, 0⟩ =
        .ok ([Event.updateCall stmt], [[("id", Value.null), ("v", Value.int 1)]]) := by
  obtain ⟨stmt, h1, h2, h3, h4, h5, h6⟩ :=
    do_updates_C6_where_scoping (fun _ _ => true) "t" ["id", "v"]
      (Current.mk [[("id", Value.null), ("v", Value.int 0)]] [([Value.null], [0])])
      { whereClause := some "org = 7" } [] [] ⟨["id"], 0, 0⟩
      [[("id", Value.null), ("v", Value.int 1)]] []
      [[("id", Value.null), ("v", Value.int 1)]]
      [("id", Value.null), ("v", Value.int 0)]
      [("id", Value.null), ("v", Value.int 1)]
      [("id", Value.null), ("v", Value.int 1)]
      ["v = %s"] [Value.int 1]
      rfl rfl rfl rfl rfl (by decide) (by decide)
  refine ⟨stmt, h1, h2, ?_, ?_, ?_⟩
  · rw [h3]; rfl
  · rw [h4]; rfl
  · rw [h5]; simp

/-! ## C8 (amended): executed updates do not write back into the snapshot -/

/-- C8, amended: executed updates do NOT write back into the in-memory
snapshot.  Even when an earlier MatchRecord `rec'` for the SAME current row
has already executed an UPDATE (`Event.updateCall stmt'` among the events of
the prefix), a later MatchRecord `rec` for that row still diffs against and
scopes its WHERE clause by the original snapshot row `curRow` — the row
bound by `listGet cur.rows rec.current` on the unchanged snapshot — not by
the previously applied values. -/
theorem do_updates_C8_no_writeback
    (sqlOk : String → List Value → Bool) (table : String) (fields : List String)
    (cur : Current) (kw : Kwargs) (pre : List MatchRecord) (rec rec' : MatchRecord)
    (stmt' : UpdateStmt) (ups : List Row) (evs : List Event) (ups1 : List Row)
    (curRow upsRow upsRow1 : Row) (sets : List String) (args : List Value)
    (hprev : rec' ∈ pre) (hsame : rec'.current = rec.current)
    (hexec : Event.updateCall stmt' ∈ evs)
    (hpre : do_updatesAux sqlOk table fields cur kw pre ups = (evs, .ok ups1))
    (hcrow : listGet cur.rows rec.current = .ok curRow)
    (hurow : listGet ups1 rec.upsert = .ok upsRow)
    (hdef : applyDefaults kw.default upsRow = .ok upsRow1)
    (hdiff : diffFields kw curRow upsRow1 fields = .ok (sets, args))
    (hne : sets ≠ [])
    (hkeyvals : ∀ f ∈ rec.key, (Row.find curRow f).isSome = true) :
    ∃ stmt : UpdateStmt,
      stmt.args = args ++ rec.key.map (fun f => Row.getPy curRow f) ∧
      stmt.wheres = optFilter kw ++
        rec.key.map (fun f => whereFrag f (Row.getPy curRow f)) ∧
      processOne sqlOk table fields cur kw ups1 rec =
        .ok ((if kw.dryrun then [Event.updatePrint stmt]
              else if sqlOk stmt.query stmt.args then [Event.updateCall stmt]
              else [Event.uvPrint]), ups1.set rec.upsert upsRow1) := by
  have hbw := @buildWhere_spec curRow rec.key (optFilter kw) args hkeyvals
  refine ⟨⟨table, sets,
    optFilter kw ++ rec.key.map (fun f => whereFrag f (Row.getPy curRow f)),
    args ++ rec.key.map (fun f => Row.getPy curRow f)⟩, rfl, rfl, ?_⟩
  simp only [processOne, hcrow, hurow, hdef, hdiff, hbw, except_bind_ok]
  rw [if_neg hne]
  split_ifs <;> rfl

/-- Witness for C8 (amended): the key-map scenario of the counterexample —
after the first record's executed UPDATE set `id` to `"b"`, the second
record for the same current row still produces where-argument `"a"` from
the untouched snapshot. -/
theorem do_updates_C8_witness :
    ∃ stmt : UpdateStmt,
      stmt.args = [Value.str "b", Value.int 2, Value.str "a"] ∧
      stmt.wheres = ["id = %s"] ∧
      processOne (fun _ _ => true) "t" ["id", "v"]
        (Current.mk [[("id", Value.str "a"), ("v", Value.int 0)]]
          [([Value.str "a"], [0]), ([Value.str "b"], [0])])
        { keymaps := [("id", [(Value.str "a", [Value.str "b"])])] }
        [[("id", Value.str "b"), ("v", Value.int 1)],
         [("id", Value.str "b"), ("v", Value.int 2)]] ⟨["id"], 0, 1⟩ =
        .ok ([Event.updateCall stmt],
          [[("id", Value.str "b"), ("v", Value.int 1)],
           [("id", Value.str "b"), ("v", Value.int 2)]]) := by
  obtain ⟨stmt, h1, h2, h3⟩ :=
    do_updates_C8_no_writeback (fun _ _ => true) "t" ["id", "v"]
      (Current.mk [[("id", Value.str "a"), ("v", Value.int 0)]]
        [([Value.str "a"], [0]), ([Value.str "b"], [0])])
      { keymaps := [("id", [(Value.str "a", [Value.str "b"])])] }
      [⟨["id"], 0, 0⟩] ⟨["id"], 0, 1⟩ ⟨["id"], 0, 0⟩
      ⟨"t", ["id = %s", "v = %s"], ["id = %s"],
        [Value.str "b", Value.int 1, Value.str "a"]⟩
      [[("id", Value.str "b"), ("v", Value.int 1)],
       [("id", Value.str "b"), ("v", Value.int 2)]]
      [Event.updateCall ⟨"t", ["id = %s", "v = %s"], ["id = %s"],
        [Value.str "b", Value.int 1, Value.str "a"]⟩]
      [[("id", Value.str "b"), ("v", Value.int 1)],
       [("id", Value.str "b"), ("v", Value.int 2)]]
      [("id", Value.str "a"), ("v", Value.int 0)]
      [("id", Value.str "b"), ("v", Value.int 2)]
      [("id", Value.str "b"), ("v", Value.int 2)]
      ["id = %s", "v = %s"] [Value.str "b", Value.int 2]
      (by decide) rfl (by decide) rfl rfl rfl rfl rfl (by decide) (by decide)
  refine ⟨stmt, ?_, ?_, ?_⟩
  · rw [h1]; rfl
  · rw [h2]; rfl
  · rw [h3]; simp

/-! ## Position bounds and unmatched-set lemmas -/

theorem memTup_tupsAdd_elim {m : TupMap} {t u : List Value} {i j : Nat}
    (h : memTup (tupsAdd m t i) u j) : memTup m u j ∨ j = i := by
  by_cases ht : u = t
  · subst ht
    rcases h with ⟨is, hg, hj⟩
    rw [tupsGet?_tupsAdd_self] at hg
    cases hg
    rcases List.mem_append.mp hj with h1 | h2
    · cases hgm : tupsGet? m u with
      | none => rw [hgm] at h1; simp at h1
      | some is0 =>
        rw [hgm] at h1
        exact Or.inl ⟨is0, hgm, by simpa using h1⟩
    · simp at h2
      exact Or.inr h2
  · rcases h with ⟨is, hg, hj⟩
    rw [tupsGet?_tupsAdd_ne m t u i ht] at hg
    exact Or.inl ⟨is, hg, hj⟩

theorem memTup_registerAll_elim {i : Nat} : ∀ {ts : List (List Value)} {m : TupMap}
    {u : List Value} {j : Nat},
    memTup (registerAll i ts m) u j → memTup m u j ∨ j = i
  | [], _, _, _, h => Or.inl h
  | t :: ts, m, u, j, h => by
    have h0 : memTup (registerAll i ts (tupsAdd m t i)) u j := h
    rcases memTup_registerAll_elim h0 with h1 | h2
    · exact memTup_tupsAdd_elim h1
    · exact Or.inr h2

theorem indexRow_elim : ∀ {keys : List (List String)} {km : Keymaps} {row : Row}
    {i : Nat} {m m' : TupMap} {u : List Value} {j : Nat},
    indexRow keys km row i m = .ok m' → memTup m' u j → memTup m u j ∨ j = i
  | [], km, row, i, m, m', u, j, h, hm => by
    simp only [indexRow] at h
    cases h
    exact Or.inl hm
  | key :: rest, km, row, i, m, m', u, j, h, hm => by
    simp only [indexRow] at h
    cases ht : to_tup row key with
    | error e => rw [ht, except_bind_err] at h; cases h
    | ok tup =>
      rw [ht, except_bind_ok] at h
      cases hts : rowTups key tup km with
      | error e => rw [hts, except_bind_err] at h; cases h
      | ok ts =>
        rw [hts, except_bind_ok] at h
        rcases indexRow_elim h hm with h1 | h2
        · exact memTup_registerAll_elim h1
        · exact Or.inr h2

theorem get_currentAux_bound : ∀ {rows : List Row} {keys : List (List String)}
    {km : Keymaps} {p : Nat} {m M : TupMap} {u : List Value} {j : Nat},
    get_currentAux keys km rows p m = .ok M → memTup M u j →
    memTup m u j ∨ j < p + rows.length
  | [], keys, km, p, m, M, u, j, h, hm => by
    simp only [get_currentAux] at h
    cases h
    exact Or.inl hm
  | row :: rest, keys, km, p, m, M, u, j, h, hm => by
    simp only [get_currentAux] at h
    cases hi : indexRow keys km row p m with
    | error e => rw [hi, except_bind_err] at h; cases h
    | ok m1 =>
      rw [hi, except_bind_ok] at h
      rcases get_currentAux_bound h hm with h1 | h1
      · rcases indexRow_elim hi h1 with h2 | h2
        · exact Or.inl h2
        · subst h2
          exact Or.inr (by simp only [List.length_cons]; omega)
      · exact Or.inr (by simp only [List.length_cons] at h1 ⊢; omega)

theorem get_current_pos_lt {rows : List Row} {keys : List (List String)}
    {km : Keymaps} {cur : Current} {t : List Value} {j : Nat}
    (hok : get_current rows keys km = .ok cur)
    (h : ∃ is, tupsGet? cur.tups t = some is ∧ j ∈ is) : j < rows.length := by
  unfold get_current at hok
  cases ha : get_currentAux keys km rows 0 [] with
  | error e => rw [ha, except_bind_err] at hok; cases hok
  | ok M =>
    rw [ha, except_bind_ok] at hok
    cases hok
    rcases get_currentAux_bound ha h with h1 | h1
    · rcases h1 with ⟨is, hg, _⟩
      simp [tupsGet?] at hg
    · simpa using h1

theorem get_current_rows_eq {rows : List Row} {keys : List (List String)}
    {km : Keymaps} {cur : Current}
    (hok : get_current rows keys km = .ok cur) : cur.rows = rows := by
  unfold get_current at hok
  cases ha : get_currentAux keys km rows 0 [] with
  | error e => rw [ha, except_bind_err] at hok; cases hok
  | ok M =>
    rw [ha, except_bind_ok] at hok
    cases hok
    rfl

theorem get?_getD {α : Type} : ∀ {l : List α} {i : Nat}, i < l.length →
    ∀ d : α, l.get? i = some (l.getD i d)
  | [], i, h, d => by simp at h
  | x :: xs, 0, h, d => rfl
  | x :: xs, i + 1, h, d => get?_getD (Nat.lt_of_succ_lt_succ h) d

theorem get_unmatched_upserts_nil {tu : List MatchRecord} {cur : Current}
    {ups : List Row}
    (h : ∀ j, j < ups.length → tu.any (fun r => r.upsert = j) = true) :
    (get_unmatched tu cur ups).upserts = [] := by
  unfold get_unmatched
  rw [List.filter_eq_nil_iff]
  intro j hj
  rw [List.mem_range] at hj
  simp [h j hj]

theorem get_unmatched_upserts_lt {tu : List MatchRecord} {cur : Current}
    {ups : List Row} : ∀ j ∈ (get_unmatched tu cur ups).upserts, j < ups.length := by
  intro j hj
  unfold get_unmatched at hj
  have := List.mem_of_mem_filter hj
  rwa [List.mem_range] at this

/-! ## C3 (amended): no-op idempotence -/

/-- C3, amended: no-op idempotence.  For every MatchRecord whose desired
row (unchanged by defaults) agrees with its matched current row on every
non-ignored field, the change set is empty (first conjunct) and no
statement is issued.  Consequently, when in addition every desired row is
matched by some MatchRecord — the second-run situation: all fields already
equal, all rows already matched — the invocation issues zero updates and
zero inserts: its whole event trace is empty (second conjunct).
(Unconditional second-run idempotence fails: see the nonullkeys
counterexample, which re-inserts a null-keyed desired row on every run.) -/
theorem upsert_C3_noop_idempotent
    (sqlOk : String → List Value → Bool) (insertOk : Row → Bool)
    (fieldsAll : List String) (currentRows : List Row) (table : String)
    (keys0 : PyKeys) (upserts : List Row) (kw : Kwargs)
    (cur : Current) (tu : List MatchRecord)
    (hcur : get_current currentRows (parse_keys keys0) kw.keymaps = .ok cur)
    (htu : get_to_update cur upserts (parse_keys keys0) kw.nonullkeys = .ok tu)
    (hdel : kw.delete = false) (hgu : kw.get_unmatched = false)
    (hni : kw.noinsert = false)
    (hdefs : ∀ j, j < upserts.length →
      applyDefaults kw.default (upserts.getD j []) = .ok (upserts.getD j []))
    (heq : ∀ rec ∈ tu, ∀ f ∈ fieldsAll.filter (fun x => x ∉ kw.ignore),
      (Row.find (cur.rows.getD rec.current []) f).isSome = true ∧
      Row.find (cur.rows.getD rec.current []) f =
        Row.find (upserts.getD rec.upsert []) f)
    (hmatch : ∀ j, j < upserts.length → tu.any (fun r => r.upsert = j) = true) :
    (∀ rec ∈ tu, diffFields kw (cur.rows.getD rec.current [])
      (upserts.getD rec.upsert []) (fieldsAll.filter (fun x => x ∉ kw.ignore)) =
      .ok ([], [])) ∧
    upsert sqlOk insertOk fieldsAll currentRows table keys0 upserts kw =
      ([], .ok .success) := by
  have hrows := get_current_rows_eq hcur
  have hrecbounds : ∀ rec ∈ tu, rec.current < cur.rows.length ∧
      upserts.get? rec.upsert = some (upserts.getD rec.upsert []) := by
    intro rec hrec
    rcases get_to_updateAux_mem htu hrec with
      ⟨n, u, hu, hjn, _, tup, is, _, hg, hic, _⟩
    constructor
    · rw [hrows]
      exact get_current_pos_lt hcur ⟨is, hg, hic⟩
    · have hn : rec.upsert = n := by omega
      rw [hn]
      have hlt : n < upserts.length := (List.get?_eq_some.mp hu).1
      rw [get?_getD hlt []]
  have hnoop : ∀ rec ∈ tu, processOne sqlOk table
      (fieldsAll.filter (fun x => x ∉ kw.ignore)) cur kw upserts rec =
      .ok ([], upserts) := by
    intro rec hrec
    obtain ⟨hlt, hups⟩ := hrecbounds rec hrec
    have hcrow : cur.rows.get? rec.current = some (cur.rows.getD rec.current []) :=
      get?_getD hlt []
    have hulen : rec.upsert < upserts.length := (List.get?_eq_some.mp hups).1
    exact processOne_noop hcrow hups (hdefs rec.upsert hulen) (heq rec hrec)
  have hdiffs : ∀ rec ∈ tu, diffFields kw (cur.rows.getD rec.current [])
      (upserts.getD rec.upsert []) (fieldsAll.filter (fun x => x ∉ kw.ignore)) =
      .ok ([], []) := fun rec hrec => diffFields_noop (heq rec hrec)
  refine ⟨hdiffs, ?_⟩
  have hupd : do_updates sqlOk table fieldsAll cur kw tu upserts =
      ([], .ok upserts) := by
    unfold do_updates
    exact do_updatesAux_noop hnoop
  have hunm : (get_unmatched tu cur upserts).upserts = [] :=
    get_unmatched_upserts_nil hmatch
  have hins : do_inserts insertOk kw (get_unmatched tu cur upserts).upserts
      upserts = ([], .ok upserts) := by
    rw [hunm]
    rfl
  have := upsert_ok_assembly hcur htu hupd hni hins hdel hgu
  simpa using this

/-- Witness for C3 (amended): desired row `{id: 1, name: "a"}` equal to the
single current row under key `("id",)`: the change set is empty and the
whole second-run invocation emits no events and returns success. -/
theorem upsert_C3_witness :
    (∀ rec ∈ [(⟨["id"], 0, 0⟩ : MatchRecord)],
      diffFields {} ((Current.mk [[("id", Value.int 1), ("name", Value.str "a")]]
          [([Value.int 1], [0])]).rows.getD rec.current [])
        (([[("id", Value.int 1), ("name", Value.str "a")]] : List Row).getD
          rec.upsert [])
        (["id", "name"].filter (fun x => x ∉ ({} : Kwargs).ignore)) =
        .ok ([], [])) ∧
    upsert (fun _ _ => true) (fun _ => true) ["id", "name"]
      [[("id", Value.int 1), ("name", Value.str "a")]] "t"
      (PyKeys.single (PyKey.scalar "id"))
      [[("id", Value.int 1), ("name", Value.str "a")]] {} =
      ([], .ok .success) :=
  upsert_C3_noop_idempotent (fun _ _ => true) (fun _ => true) ["id", "name"]
    [[("id", Value.int 1), ("name", Value.str "a")]] "t"
    (PyKeys.single (PyKey.scalar "id"))
    [[("id", Value.int 1), ("name", Value.str "a")]] {}
    (Current.mk [[("id", Value.int 1), ("name", Value.str "a")]]
      [([Value.int 1], [0])])
    [⟨["id"], 0, 0⟩]
    rfl rfl rfl rfl rfl (fun j hj => rfl) (by decide) (by decide)

/-! ## Insert-phase lemmas (do_inserts) -/

theorem do_insertsAux_cons (insertOk : Row → Bool) (kw : Kwargs) (i : Nat)
    (rest : List Nat) (ups : List Row) :
    do_insertsAux insertOk kw (i :: rest) ups =
      match do_insertsStep insertOk kw ups i with
      | .error e => ([], .error e)
      | .ok (evs, ups1) =>
        (evs ++ (do_insertsAux insertOk kw rest ups1).1,
         (do_insertsAux insertOk kw rest ups1).2) := by
  cases hp : do_insertsStep insertOk kw ups i with
  | error e => simp only [do_insertsAux, hp]
  | ok pair =>
    cases pair
    simp only [do_insertsAux, hp]

theorem do_insertsStep_simple {insertOk : Row → Bool} {kw : Kwargs}
    {ups : List Row} {i : Nat} {row : Row}
    (hd : kw.default = []) (hb : kw.before_insert = none) (hdr : kw.dryrun = false)
    (hrow : ups.get? i = some row) :
    do_insertsStep insertOk kw ups i =
      .ok ((if insertOk row then [Event.insertCall row] else [Event.uvPrint]),
        ups) := by
  have h1 : listGet ups i = .ok row := listGet_ok_iff.mpr hrow
  simp only [do_insertsStep, h1, hd, hb, hdr, applyDefaults, except_bind_ok]
  rw [list_set_self ups i row hrow]
  simp

theorem do_insertsAux_simple {insertOk : Row → Bool} {kw : Kwargs}
    (hd : kw.default = []) (hb : kw.before_insert = none) (hdr : kw.dryrun = false) :
    ∀ {idxs : List Nat} {ups : List Row}, (∀ i ∈ idxs, i < ups.length) →
    do_insertsAux insertOk kw idxs ups =
      (idxs.map (fun i => if insertOk (ups.getD i []) then
          Event.insertCall (ups.getD i []) else Event.uvPrint), .ok ups)
  | [], ups, _ => rfl
  | i :: rest, ups, h => by
    have hi : i < ups.length := h i (List.mem_cons_self _ _)
    have hrow := get?_getD hi ([] : Row)
    have hstep := @do_insertsStep_simple insertOk kw ups i (ups.getD i [])
      hd hb hdr hrow
    have hrest := @do_insertsAux_simple insertOk kw hd hb hdr rest ups
      (fun j hj => h j (List.mem_cons_of_mem _ hj))
    simp only [do_insertsAux, hstep, hrest]
    by_cases hio : insertOk (ups.getD i []) = true
    · rw [if_pos hio, List.map_cons, if_pos hio]
      rfl
    · rw [if_neg hio, List.map_cons, if_neg hio]
      rfl

/-! ## C1: partial failure isolation for inserts -/

/-- C1: Partial failure isolation for inserts.  When exactly one unmatched
desired row's insert raises a uniqueness violation (insert oracle false at
`m`, true elsewhere), the violation is caught and logged (`Event.uvPrint`
in the trace), every other unmatched desired row is still inserted
(`Event.insertCall` for each), and the call still returns the success
marker rather than propagating the error.  (Scenario without defaults or a
pre-insert hook, live mode.) -/
theorem upsert_C1_insert_isolation
    (sqlOk : String → List Value → Bool) (insertOk : Row → Bool)
    (fieldsAll : List String) (currentRows : List Row) (table : String)
    (keys0 : PyKeys) (upserts : List Row) (kw : Kwargs)
    (cur : Current) (tu : List MatchRecord) (ev1 : List Event) (ups1 : List Row)
    (m : Nat)
    (hcur : get_current currentRows (parse_keys keys0) kw.keymaps = .ok cur)
    (htu : get_to_update cur upserts (parse_keys keys0) kw.nonullkeys = .ok tu)
    (hupd : do_updates sqlOk table fieldsAll cur kw tu upserts = (ev1, .ok ups1))
    (hni : kw.noinsert = false) (hdel : kw.delete = false)
    (hgu : kw.get_unmatched = false) (hdr : kw.dryrun = false)
    (hd : kw.default = []) (hb : kw.before_insert = none)
    (hm : m ∈ (get_unmatched tu cur ups1).upserts)
    (hviol : insertOk (ups1.getD m []) = false)
    (hok : ∀ j ∈ (get_unmatched tu cur ups1).upserts, j ≠ m →
      insertOk (ups1.getD j []) = true) :
    upsert sqlOk insertOk fieldsAll currentRows table keys0 upserts kw =
      (ev1 ++ (get_unmatched tu cur ups1).upserts.map (fun i =>
        if insertOk (ups1.getD i []) then Event.insertCall (ups1.getD i [])
        else Event.uvPrint), .ok .success) ∧
    Event.uvPrint ∈ (get_unmatched tu cur ups1).upserts.map (fun i =>
      if insertOk (ups1.getD i []) then Event.insertCall (ups1.getD i [])
      else Event.uvPrint) ∧
    ∀ j ∈ (get_unmatched tu cur ups1).upserts, j ≠ m →
      Event.insertCall (ups1.getD j []) ∈
        (get_unmatched tu cur ups1).upserts.map (fun i =>
          if insertOk (ups1.getD i []) then Event.insertCall (ups1.getD i [])
          else Event.uvPrint) := by
  have hins : do_inserts insertOk kw (get_unmatched tu cur ups1).upserts ups1 =
      ((get_unmatched tu cur ups1).upserts.map (fun i =>
        if insertOk (ups1.getD i []) then Event.insertCall (ups1.getD i [])
        else Event.uvPrint), .ok ups1) := by
    unfold do_inserts
    exact do_insertsAux_simple hd hb hdr get_unmatched_upserts_lt
  refine ⟨upsert_ok_assembly hcur htu hupd hni hins hdel hgu, ?_, ?_⟩
  · refine List.mem_map.mpr ⟨m, hm, ?_⟩
    rw [hviol]
    simp
  · intro j hj hne
    refine List.mem_map.mpr ⟨j, hj, ?_⟩
    rw [hok j hj hne]
    simp

/-- Witness for C1: three desired rows against an empty table, where only
the second row's insert violates uniqueness — rows one and three are still
inserted, the violation is logged once, and the call returns success. -/
theorem upsert_C1_witness :
    upsert (fun _ _ => true)
      (fun r => if r = [("id", Value.int 2)] then false else true)
      ["id"] [] "t" (PyKeys.single (PyKey.scalar "id"))
      [[("id", Value.int 1)], [("id", Value.int 2)], [("id", Value.int 3)]] {} =
      ([Event.insertCall [("id", Value.int 1)], Event.uvPrint,
        Event.insertCall [("id", Value.int 3)]], .ok .success) ∧
    Event.uvPrint ∈ [Event.insertCall [("id", Value.int 1)], Event.uvPrint,
      Event.insertCall [("id", Value.int 3)]] ∧
    ∀ j ∈ [0, 1, 2], j ≠ 1 →
      Event.insertCall (([[("id", Value.int 1)], [("id", Value.int 2)],
        [("id", Value.int 3)]] : List Row).getD j []) ∈
        [Event.insertCall [("id", Value.int 1)], Event.uvPrint,
         Event.insertCall [("id", Value.int 3)]] := by
  obtain ⟨h1, h2, h3⟩ := upsert_C1_insert_isolation (fun _ _ => true)
    (fun r => if r = [("id", Value.int 2)] then false else true)
    ["id"] [] "t" (PyKeys.single (PyKey.scalar "id"))
    [[("id", Value.int 1)], [("id", Value.int 2)], [("id", Value.int 3)]] {}
    (Current.mk [] []) [] []
    [[("id", Value.int 1)], [("id", Value.int 2)], [("id", Value.int 3)]] 1
    rfl rfl rfl rfl rfl rfl rfl rfl rfl (by decide) (by decide) (by decide)
  exact ⟨h1, h2, h3⟩

/-! ## C7 (amended): dry-run and the pre-insert hook -/

theorem do_insertsStep_dryrun_shape {insertOk : Row → Bool} {kw : Kwargs}
    {ups : List Row} {i : Nat} {evs : List Event} {ups1 : List Row}
    (hdr : kw.dryrun = true)
    (h : do_insertsStep insertOk kw ups i = .ok (evs, ups1)) :
    ∃ row1, evs = [Event.insertPrint row1] := by
  cases h1 : listGet ups i with
  | error e =>
    simp only [do_insertsStep, h1, except_bind_err] at h
    cases h
  | ok row =>
    cases h2 : applyDefaults kw.default row with
    | error e =>
      simp only [do_insertsStep, h1, h2, except_bind_ok, except_bind_err] at h
      cases h
    | ok row1 =>
      cases hbi : kw.before_insert with
      | none =>
        simp only [do_insertsStep, h1, h2, hbi, hdr, except_bind_ok,
          if_true, List.nil_append] at h
        injection h with h
        injection h with he hu
        exact ⟨row1, he.symm⟩
      | some hargs =>
        cases h3 : resolveArgs row1 hargs with
        | error e =>
          simp only [do_insertsStep, h1, h2, hbi, h3, except_bind_ok,
            except_bind_err] at h
          cases h
        | ok args =>
          simp only [do_insertsStep, h1, h2, hbi, h3, hdr, except_bind_ok,
            if_true, List.nil_append] at h
          injection h with h
          injection h with he hu
          exact ⟨row1, he.symm⟩

theorem do_insertsAux_no_hook {insertOk : Row → Bool} {kw : Kwargs}
    (hdr : kw.dryrun = true) :
    ∀ (idxs : List Nat) (ups : List Row) (args : List Value),
    Event.hookCall args ∉ (do_insertsAux insertOk kw idxs ups).1
  | [], ups, args => by simp [do_insertsAux]
  | i :: rest, ups, args => by
    rw [do_insertsAux_cons]
    cases hp : do_insertsStep insertOk kw ups i with
    | error e => simp
    | ok pair =>
      obtain ⟨evs, ups1⟩ := pair
      obtain ⟨row1, hrow1⟩ := do_insertsStep_dryrun_shape hdr hp
      subst hrow1
      intro hmem
      simp only [List.mem_append] at hmem
      rcases hmem with h1 | h2
      · simp at h1
      · exact do_insertsAux_no_hook hdr rest ups1 args h2

/-- C7, amended: dry-run skips the pre-insert hook's INVOCATION but not its
argument resolution.  (i) In dry-run mode, no `Event.hookCall` ever occurs
in the insert loop's trace.  (ii) Argument resolution still runs in any
mode: when resolving the hook's arguments against the defaulted row fails
(e.g. a back-reference to an absent field), the insert step fails with that
error — even in dry-run.  (iii) When dry-run is not active and resolution
succeeds, the hook is invoked with the resolved arguments, strictly before
the insert. -/
theorem do_inserts_C7_dryrun_hook
    (insertOk : Row → Bool) (kw : Kwargs) (ups : List Row) (i : Nat)
    (row row1 : Row) (hargs : List Value)
    (hb : kw.before_insert = some hargs)
    (hrow : listGet ups i = .ok row)
    (hdefs : applyDefaults kw.default row = .ok row1) :
    (kw.dryrun = true → ∀ (idxs : List Nat) (ups0 : List Row) (args : List Value),
      Event.hookCall args ∉ (do_insertsAux insertOk kw idxs ups0).1) ∧
    (∀ e : Err, resolveArgs row1 hargs = .error e →
      do_insertsStep insertOk kw ups i = .error e) ∧
    (kw.dryrun = false → ∀ args : List Value, resolveArgs row1 hargs = .ok args →
      do_insertsStep insertOk kw ups i =
        .ok (Event.hookCall args ::
          (if insertOk row1 then [Event.insertCall row1] else [Event.uvPrint]),
          ups.set i row1)) := by
  refine ⟨fun hdr idxs ups0 args => do_insertsAux_no_hook hdr idxs ups0 args,
    ?_, ?_⟩
  · intro e hre
    simp only [do_insertsStep, hrow, hdefs, hb, hre, except_bind_ok,
      except_bind_err]
  · intro hdr args hres
    simp only [do_insertsStep, hrow, hdefs, hb, hres, hdr, except_bind_ok]
    simp

/-- Witness for C7 (amended), at a dry-run configuration whose hook argument
is a back-reference to a field the row does not have: no hook event can
occur, and the resolution failure aborts the step even in dry-run. -/
theorem do_inserts_C7_witness :
    (({ before_insert := some [Value.str "*missing"], dryrun := true } :
        Kwargs).dryrun = true →
      ∀ (idxs : List Nat) (ups0 : List Row) (args : List Value),
      Event.hookCall args ∉ (do_insertsAux (fun _ => true)
        { before_insert := some [Value.str "*missing"], dryrun := true }
        idxs ups0).1) ∧
    (∀ e : Err,
      resolveArgs [("a", Value.int 1)] [Value.str "*missing"] = .error e →
      do_insertsStep (fun _ => true)
        { before_insert := some [Value.str "*missing"], dryrun := true }
        [[("a", Value.int 1)]] 0 = .error e) ∧
    (({ before_insert := some [Value.str "*missing"], dryrun := true } :
        Kwargs).dryrun = false →
      ∀ args : List Value,
      resolveArgs [("a", Value.int 1)] [Value.str "*missing"] = .ok args →
      do_insertsStep (fun _ => true)
        { before_insert := some [Value.str "*missing"], dryrun := true }
        [[("a", Value.int 1)]] 0 =
        .ok (Event.hookCall args ::
          (if (fun _ => true) [("a", Value.int 1)] then
            [Event.insertCall [("a", Value.int 1)]] else [Event.uvPrint]),
          ([[("a", Value.int 1)]] : List Row).set 0 [("a", Value.int 1)])) :=
  do_inserts_C7_dryrun_hook (fun _ => true)
    { before_insert := some [Value.str "*missing"], dryrun := true }
    [[("a", Value.int 1)]] 0 [("a", Value.int 1)] [("a", Value.int 1)]
    [Value.str "*missing"] rfl rfl rfl

/-! ## C9 (amended): key-map fields must occur in every declared key -/

theorem to_tup_length : ∀ {row : Row} {key : List String} {tup : List Value},
    to_tup row key = .ok tup → tup.length = key.length
  | row, [], tup, h => by
    simp only [to_tup] at h
    cases h
    rfl
  | row, f :: rest, tup, h => by
    simp only [to_tup] at h
    cases h1 : getItem row f with
    | error e => rw [h1, except_bind_err] at h; cases h
    | ok v =>
      rw [h1, except_bind_ok] at h
      cases h2 : to_tup row rest with
      | error e => rw [h2, except_bind_err] at h; cases h
      | ok vs =>
        rw [h2, except_bind_ok] at h
        cases h
        simp [to_tup_length h2]

theorem keyIndex_lt : ∀ {key : List String} {f : String} {idx : Nat},
    keyIndex key f = .ok idx → idx < key.length
  | [], f, idx, h => by
    simp only [keyIndex] at h
    cases h
  | g :: rest, f, idx, h => by
    simp only [keyIndex] at h
    by_cases hg : g = f
    · rw [if_pos hg] at h
      cases h
      simp
    · rw [if_neg hg] at h
      cases h1 : keyIndex rest f with
      | error e => rw [h1, except_bind_err] at h; cases h
      | ok n =>
        rw [h1, except_bind_ok] at h
        cases h
        have := keyIndex_lt h1
        simp only [List.length_cons]
        omega

theorem keyIndex_ok_of_mem : ∀ {key : List String} {f : String}, f ∈ key →
    ∃ idx, keyIndex key f = .ok idx
  | [], f, h => absurd h (List.not_mem_nil _)
  | g :: rest, f, h => by
    by_cases hg : g = f
    · exact ⟨0, by simp [keyIndex, hg]⟩
    · rcases List.mem_cons.mp h with h1 | h2
      · exact absurd h1.symm hg
      · obtain ⟨n, hn⟩ := keyIndex_ok_of_mem h2
        exact ⟨n + 1, by simp only [keyIndex, if_neg hg, hn, except_bind_ok]⟩

theorem keyIndex_err_of_not_mem : ∀ {key : List String} {f : String}, f ∉ key →
    keyIndex key f = .error (.valueError f)
  | [], f, h => rfl
  | g :: rest, f, h => by
    have hg : ¬(g = f) := by
      intro e
      subst e
      exact h (List.mem_cons_self _ _)
    have h2 : f ∉ rest := fun hm => h (List.mem_cons_of_mem _ hm)
    simp only [keyIndex, if_neg hg, keyIndex_err_of_not_mem h2, except_bind_err]

theorem to_tup_ok_of_wf : ∀ {row : Row} {key : List String},
    (∀ f ∈ key, (Row.find row f).isSome = true) →
    ∃ tup, to_tup row key = .ok tup
  | row, [], _ => ⟨[], rfl⟩
  | row, f :: rest, h => by
    obtain ⟨v, hv⟩ := Option.isSome_iff_exists.mp (h f (List.mem_cons_self _ _))
    obtain ⟨vs, hvs⟩ := to_tup_ok_of_wf (fun g hg => h g (List.mem_cons_of_mem _ hg))
    exact ⟨v :: vs,
      by simp only [to_tup, getItem_ok_iff.mpr hv, hvs, except_bind_ok]⟩

theorem aliasAdds_err_of_not_mem {key : List String} {f : String}
    {tup : List Value} {maps : List (Value × List Value)}
    (hm : maps ≠ []) (hf : f ∉ key) :
    aliasAdds key f tup maps = .error (.valueError f) := by
  cases maps with
  | nil => exact absurd rfl hm
  | cons p rest =>
    obtain ⟨k, vs⟩ := p
    simp only [aliasAdds, keyIndex_err_of_not_mem hf, except_bind_err]

theorem aliasAdds_ok_of_mem {key : List String} {f : String} {tup : List Value}
    (hlen : tup.length = key.length) (hf : f ∈ key) :
    ∀ maps : List (Value × List Value), ∃ adds, aliasAdds key f tup maps = .ok adds
  | [] => ⟨[], rfl⟩
  | (k, vs) :: rest => by
    obtain ⟨idx, hidx⟩ := keyIndex_ok_of_mem hf
    have hlt : idx < tup.length := by
      rw [hlen]
      exact keyIndex_lt hidx
    obtain ⟨cur, hcur⟩ := listGet_ok_of_lt hlt
    obtain ⟨more, hmore⟩ := aliasAdds_ok_of_mem hlen hf rest
    refine ⟨(if cur = k then vs.map (fun v => tup.set idx v) else []) ++ more, ?_⟩
    simp only [aliasAdds, hidx, hcur, hmore, except_bind_ok]

theorem allAliasAdds_err {key : List String} {tup : List Value}
    (hlen : tup.length = key.length) :
    ∀ {km : Keymaps}, (∃ p ∈ km, p.2 ≠ [] ∧ p.1 ∉ key) →
    ∃ g, allAliasAdds key tup km = .error (.valueError g)
  | [], h => by
    rcases h with ⟨p, hp, _⟩
    exact absurd hp (List.not_mem_nil _)
  | (f0, maps0) :: rest, h => by
    by_cases hoff : maps0 ≠ [] ∧ f0 ∉ key
    · exact ⟨f0, by simp only [allAliasAdds,
        aliasAdds_err_of_not_mem hoff.1 hoff.2, except_bind_err]⟩
    · have hhead : ∃ adds, aliasAdds key f0 tup maps0 = .ok adds := by
        by_cases hm : maps0 = []
        · subst hm
          exact ⟨[], rfl⟩
        · have hf : f0 ∈ key := by
            by_contra hc
            exact hoff ⟨hm, hc⟩
          exact aliasAdds_ok_of_mem hlen hf maps0
      obtain ⟨adds, ha⟩ := hhead
      have hrest : ∃ p ∈ rest, p.2 ≠ [] ∧ p.1 ∉ key := by
        rcases h with ⟨p, hp, hpp⟩
        rcases List.mem_cons.mp hp with h1 | h2
        · rw [h1] at hpp
          exact absurd hpp hoff
        · exact ⟨p, h2, hpp⟩
      obtain ⟨g, hg⟩ := allAliasAdds_err hlen hrest
      exact ⟨g, by simp only [allAliasAdds, ha, hg, except_bind_ok,
        except_bind_err]⟩

theorem allAliasAdds_ok {key : List String} {tup : List Value}
    (hlen : tup.length = key.length) :
    ∀ {km : Keymaps}, (∀ p ∈ km, p.2 ≠ [] → p.1 ∈ key) →
    ∃ adds, allAliasAdds key tup km = .ok adds
  | [], _ => ⟨[], rfl⟩
  | (f0, maps0) :: rest, h => by
    have hhead : ∃ adds, aliasAdds key f0 tup maps0 = .ok adds := by
      by_cases hm : maps0 = []
      · subst hm
        exact ⟨[], rfl⟩
      · exact aliasAdds_ok_of_mem hlen
          (h (f0, maps0) (List.mem_cons_self _ _) hm) maps0
    obtain ⟨a1, ha⟩ := hhead
    obtain ⟨more, hmore⟩ := allAliasAdds_ok hlen
      (fun p hp => h p (List.mem_cons_of_mem _ hp))
    exact ⟨a1 ++ more, by simp only [allAliasAdds, ha, hmore, except_bind_ok]⟩

theorem indexRow_err : ∀ {keys : List (List String)} {km : Keymaps} {row : Row}
    {i : Nat} (m : TupMap),
    (∀ key ∈ keys, ∀ f ∈ key, (Row.find row f).isSome = true) →
    (∃ key ∈ keys, ∃ p ∈ km, p.2 ≠ [] ∧ p.1 ∉ key) →
    ∃ g, indexRow keys km row i m = .error (.valueError g)
  | [], km, row, i, m, _, hoff => by
    rcases hoff with ⟨key, hk, _⟩
    exact absurd hk (List.not_mem_nil _)
  | key0 :: rest, km, row, i, m, hwf, hoff => by
    obtain ⟨tup, htup⟩ := to_tup_ok_of_wf (hwf key0 (List.mem_cons_self _ _))
    have hlen := to_tup_length htup
    by_cases hk : ∃ p ∈ km, p.2 ≠ [] ∧ p.1 ∉ key0
    · obtain ⟨g, hg⟩ := allAliasAdds_err hlen hk
      exact ⟨g, by simp only [indexRow, htup, except_bind_ok, rowTups, hg,
        except_bind_err]⟩
    · have hclean : ∀ p ∈ km, p.2 ≠ [] → p.1 ∈ key0 := by
        intro p hp hne
        by_contra hc
        exact hk ⟨p, hp, hne, hc⟩
      obtain ⟨adds, ha⟩ := allAliasAdds_ok hlen hclean
      have hoffrest : ∃ key ∈ rest, ∃ p ∈ km, p.2 ≠ [] ∧ p.1 ∉ key := by
        rcases hoff with ⟨key, hkm, p, hp, hpp⟩
        rcases List.mem_cons.mp hkm with h1 | h2
        · subst h1
          exact absurd ⟨p, hp, hpp⟩ hk
        · exact ⟨key, h2, p, hp, hpp⟩
      obtain ⟨g, hg⟩ := @indexRow_err rest km row i (registerAll i (tup :: adds) m)
        (fun k hk2 => hwf k (List.mem_cons_of_mem _ hk2)) hoffrest
      exact ⟨g, by simp only [indexRow, htup, rowTups, ha, except_bind_ok, hg]⟩

theorem indexRow_ok : ∀ {keys : List (List String)} {km : Keymaps} {row : Row}
    {i : Nat} (m : TupMap),
    (∀ key ∈ keys, ∀ f ∈ key, (Row.find row f).isSome = true) →
    (∀ key ∈ keys, ∀ p ∈ km, p.2 ≠ [] → p.1 ∈ key) →
    ∃ m', indexRow keys km row i m = .ok m'
  | [], km, row, i, m, _, _ => ⟨m, rfl⟩
  | key0 :: rest, km, row, i, m, hwf, hcl => by
    obtain ⟨tup, htup⟩ := to_tup_ok_of_wf (hwf key0 (List.mem_cons_self _ _))
    have hlen := to_tup_length htup
    obtain ⟨adds, ha⟩ := allAliasAdds_ok hlen (hcl key0 (List.mem_cons_self _ _))
    obtain ⟨m', hm'⟩ := @indexRow_ok rest km row i (registerAll i (tup :: adds) m)
      (fun k hk2 => hwf k (List.mem_cons_of_mem _ hk2))
      (fun k hk2 => hcl k (List.mem_cons_of_mem _ hk2))
    exact ⟨m', by simp only [indexRow, htup, rowTups, ha, except_bind_ok, hm']⟩

theorem get_currentAux_ok : ∀ {rows : List Row} {keys : List (List String)}
    {km : Keymaps} {p : Nat} (m : TupMap),
    (∀ row ∈ rows, ∀ key ∈ keys, ∀ f ∈ key, (Row.find row f).isSome = true) →
    (∀ key ∈ keys, ∀ q ∈ km, q.2 ≠ [] → q.1 ∈ key) →
    ∃ M, get_currentAux keys km rows p m = .ok M
  | [], keys, km, p, m, _, _ => ⟨m, rfl⟩
  | row :: rest, keys, km, p, m, hwf, hcl => by
    obtain ⟨m1, hm1⟩ := @indexRow_ok keys km row p m
      (hwf row (List.mem_cons_self _ _)) hcl
    obtain ⟨M, hM⟩ := @get_currentAux_ok rest keys km (p + 1) m1
      (fun r hr => hwf r (List.mem_cons_of_mem _ hr)) hcl
    exact ⟨M, by simp only [get_currentAux, hm1, except_bind_ok, hM]⟩

theorem upsert_error_of_current
    {sqlOk : String → List Value → Bool} {insertOk : Row → Bool}
    {fieldsAll : List String} {currentRows : List Row} {table : String}
    {keys0 : PyKeys} {upserts : List Row} {kw : Kwargs} {e : Err}
    (hcur : get_current currentRows (parse_keys keys0) kw.keymaps = .error e) :
    upsert sqlOk insertOk fieldsAll currentRows table keys0 upserts kw =
      ([], .error e) := by
  simp only [upsert, hcur]

/-- C9, amended: implicit precondition on key-maps.  If the key-map maps
some field with at least one mapped source value and that field is not a
member of some declared key, then as soon as the snapshot contains at least
one (well-formed) row, index construction raises an uncaught ValueError
(from `key.index(field)`), and the whole invocation aborts with it before
any matching, emitting no events.  Conversely, when every key-map field
with a non-empty value map occurs in every declared key, index construction
succeeds.  (A key-map field whose value map is empty never reaches
`key.index` — see the counterexample.) -/
theorem get_current_C9_keymap_precondition
    (sqlOk : String → List Value → Bool) (insertOk : Row → Bool)
    (fieldsAll : List String) (rows : List Row) (table : String)
    (keys0 : PyKeys) (upserts : List Row) (kw : Kwargs)
    (keys : List (List String)) (km : Keymaps)
    (hkeys : parse_keys keys0 = keys) (hkm : kw.keymaps = km)
    (hwf : ∀ row ∈ rows, ∀ key ∈ keys, ∀ f ∈ key, (Row.find row f).isSome = true) :
    (rows ≠ [] → (∃ key ∈ keys, ∃ p ∈ km, p.2 ≠ [] ∧ p.1 ∉ key) →
      ∃ g, get_current rows keys km = .error (.valueError g) ∧
        upsert sqlOk insertOk fieldsAll rows table keys0 upserts kw =
          ([], .error (.valueError g))) ∧
    ((∀ key ∈ keys, ∀ p ∈ km, p.2 ≠ [] → p.1 ∈ key) →
      ∃ cur, get_current rows keys km = .ok cur) := by
  subst hkeys
  subst hkm
  constructor
  · intro hne hoff
    cases rows with
    | nil => exact absurd rfl hne
    | cons row0 rest =>
      obtain ⟨g, hg⟩ := @indexRow_err (parse_keys keys0) kw.keymaps row0 0 []
        (hwf row0 (List.mem_cons_self _ _)) hoff
      have hcur : get_current (row0 :: rest) (parse_keys keys0) kw.keymaps =
          .error (.valueError g) := by
        unfold get_current
        simp only [get_currentAux, hg, except_bind_err]
      exact ⟨g, hcur, upsert_error_of_current hcur⟩
  · intro hcl
    obtain ⟨M, hM⟩ := @get_currentAux_ok rows (parse_keys keys0) kw.keymaps 0
      [] hwf hcl
    exact ⟨⟨rows, M⟩, by
      unfold get_current
      simp only [hM, except_bind_ok]⟩

/-- Witness for C9 (amended): key `("f1",)` with key-map `{"f2": {0: [1]}}`
(field `f2` not in the key, one mapped value) fails with ValueError on a
one-row snapshot and aborts the invocation; the same snapshot with the
key-map `{"f1": {0: [1]}}` (field in the key) indexes fine. -/
theorem get_current_C9_witness :
    (∃ g, get_current [[("f1", Value.int 1)]] [["f1"]]
        [("f2", [(Value.int 0, [Value.int 1])])] = .error (.valueError g) ∧
      upsert (fun _ _ => true) (fun _ => true) ["f1"] [[("f1", Value.int 1)]]
        "t" (PyKeys.single (PyKey.scalar "f1")) []
        { keymaps := [("f2", [(Value.int 0, [Value.int 1])])] } =
        ([], .error (.valueError g))) ∧
    (∃ cur, get_current [[("f1", Value.int 1)]] [["f1"]]
      [("f1", [(Value.int 0, [Value.int 1])])] = .ok cur) := by
  constructor
  · exact (get_current_C9_keymap_precondition (fun _ _ => true) (fun _ => true)
      ["f1"] [[("f1", Value.int 1)]] "t" (PyKeys.single (PyKey.scalar "f1")) []
      { keymaps := [("f2", [(Value.int 0, [Value.int 1])])] }
      [["f1"]] [("f2", [(Value.int 0, [Value.int 1])])]
      rfl rfl (by decide)).1 (by decide) (by decide)
  · exact (get_current_C9_keymap_precondition (fun _ _ => true) (fun _ => true)
      ["f1"] [[("f1", Value.int 1)]] "t" (PyKeys.single (PyKey.scalar "f1")) []
      { keymaps := [("f1", [(Value.int 0, [Value.int 1])])] }
      [["f1"]] [("f1", [(Value.int 0, [Value.int 1])])]
      rfl rfl (by decide)).2 (by decide)
